import Mathlib

/-!
Verification of the checkmate-factbench evaluation pipeline.

This file shallowly embeds the core of the repository in Lean 4:
the label normalizer and confusion matrix (`src/lib/labels.ts`),
the per-example evaluator and bounded-concurrency task pool
(`src/lib/evaluate.ts`), the JSONL cache store (`src/lib/cache.ts`)
and the cache lookup of the orchestrator (`src/hooks/useEvaluationRun.ts`).

Strings are modelled as Lean strings over their character lists; the
JavaScript `trim`, `toUpperCase` and `includes` operations are embedded
over the ASCII fragment the program works with.  External effects
(the provider call, the file system) are passed in as explicit values.
-/

/-! ## JavaScript string primitives -/

/-- The whitespace characters stripped by JavaScript `String.prototype.trim`
(ASCII fragment: space, tab, line feed, carriage return, vertical tab,
form feed). -/
def jsWhitespaceChar (c : Char) : Bool :=
  c = ' ' || c = '\t' || c = '\n' || c = '\r' || c = '\x0b' || c = '\x0c'

/-- Strip leading whitespace from a character list. -/
def trimLeftL (l : List Char) : List Char := l.dropWhile jsWhitespaceChar

/-- Strip leading and trailing whitespace from a character list. -/
def trimL (l : List Char) : List Char :=
  ((trimLeftL l).reverse.dropWhile jsWhitespaceChar).reverse

/-- Embeds JavaScript `String.prototype.trim`. -/
def jsTrim (s : String) : String := ⟨trimL s.toList⟩

/-- Embeds JavaScript `String.prototype.toUpperCase` (ASCII fragment). -/
def jsToUpper (s : String) : String := ⟨s.toList.map Char.toUpper⟩

/-- `leadMatch pat l` holds when `pat` is an initial segment of `l`. -/
def leadMatch : List Char → List Char → Bool
  | [], _ => true
  | _ :: _, [] => false
  | p :: ps, c :: cs => p == c && leadMatch ps cs

/-- `containsL pat l` holds when `pat` occurs contiguously inside `l`. -/
def containsL (pat : List Char) : List Char → Bool
  | [] => leadMatch pat []
  | c :: cs => leadMatch pat (c :: cs) || containsL pat cs

/-- Embeds JavaScript `String.prototype.includes`: does `s` contain `pat`? -/
def strIncludes (s pat : String) : Bool := containsL pat.toList s.toList

/-! ## Labels (`src/lib/labels.ts`) -/

/-- The three canonical FEVER gold labels (`FEVER_LABELS`). -/
inductive FeverLabel where
  | SUPPORTS
  | REFUTES
  | NOT_ENOUGH_INFO
deriving DecidableEq, Repr

/-- The canonical string of a gold label. -/
def feverToString : FeverLabel → String
  | .SUPPORTS => "SUPPORTS"
  | .REFUTES => "REFUTES"
  | .NOT_ENOUGH_INFO => "NOT ENOUGH INFO"

/-- Embeds `isFeverLabel`: string equality against the three canonical labels. -/
def isFeverLabel (x : String) : Bool :=
  x == "SUPPORTS" || x == "REFUTES" || x == "NOT ENOUGH INFO"

/-- The canonical label denoted by a string, if any.  This refines the
boolean `isFeverLabel` test of the source, which returns the string itself
on success (`if (isFeverLabel(t)) return t`). -/
def feverOfString (x : String) : Option FeverLabel :=
  if x == "SUPPORTS" then some .SUPPORTS
  else if x == "REFUTES" then some .REFUTES
  else if x == "NOT ENOUGH INFO" then some .NOT_ENOUGH_INFO
  else none

/-- A predicted label: a gold label or the `INVALID` sentinel
(`PredictedLabel = FeverLabel | "INVALID"`). -/
inductive PredictedLabel where
  | SUPPORTS
  | REFUTES
  | NOT_ENOUGH_INFO
  | INVALID
deriving DecidableEq, Repr

/-- The injection of gold labels into predicted labels. -/
def PredictedLabel.ofFever : FeverLabel → PredictedLabel
  | .SUPPORTS => .SUPPORTS
  | .REFUTES => .REFUTES
  | .NOT_ENOUGH_INFO => .NOT_ENOUGH_INFO

/-- Embeds `normalizePredictedLabel` from `src/lib/labels.ts`:
trim, exact canonical match, exact abbreviation match, then ordered
case-insensitive substring checks, defaulting to `INVALID`. -/
def normalizePredictedLabel (raw : String) : PredictedLabel :=
  let t := jsTrim raw
  match feverOfString t with
  | some l => .ofFever l
  | none =>
    let u := jsToUpper t
    if u == "NEI" || u == "NOT_ENOUGH_INFO" || u == "NOTENOUGHINFO" then
      .NOT_ENOUGH_INFO
    else if strIncludes u "NOT ENOUGH INFO" || strIncludes u "NOT_ENOUGH_INFO" then
      .NOT_ENOUGH_INFO
    else if strIncludes u "SUPPORTS" then .SUPPORTS
    else if strIncludes u "REFUTES" then .REFUTES
    else if strIncludes u "SUPPORTED" then .SUPPORTS
    else if strIncludes u "REFUTED" then .REFUTES
    else .INVALID

/-- First-match-wins over an ordered list of (condition, label) rules. -/
def firstMatch : List (Bool × PredictedLabel) → PredictedLabel
  | [] => .INVALID
  | (b, l) :: rest => if b then l else firstMatch rest

/-- The normalization policy as the specification words it (spec §4.1):
trim; exact match against the three canonical labels returns immediately;
otherwise, case-insensitively check, in order: known abbreviations and
underscored variants of NOT ENOUGH INFO, substring containment of
NOT ENOUGH INFO or its underscored form, then the substrings SUPPORTS,
REFUTES, SUPPORTED, REFUTED; if none match, INVALID. -/
def normalizeSpec (raw : String) : PredictedLabel :=
  let t := jsTrim raw
  if t == "SUPPORTS" then .SUPPORTS
  else if t == "REFUTES" then .REFUTES
  else if t == "NOT ENOUGH INFO" then .NOT_ENOUGH_INFO
  else
    let u := jsToUpper t
    firstMatch
      [ (u == "NEI" || u == "NOT_ENOUGH_INFO" || u == "NOTENOUGHINFO",
          .NOT_ENOUGH_INFO),
        (strIncludes u "NOT ENOUGH INFO" || strIncludes u "NOT_ENOUGH_INFO",
          .NOT_ENOUGH_INFO),
        (strIncludes u "SUPPORTS", .SUPPORTS),
        (strIncludes u "REFUTES", .REFUTES),
        (strIncludes u "SUPPORTED", .SUPPORTS),
        (strIncludes u "REFUTED", .REFUTES) ]

theorem normalize_eq_spec (s : String) :
    normalizePredictedLabel s = normalizeSpec s := by
  unfold normalizePredictedLabel normalizeSpec feverOfString
  cases h1 : (jsTrim s == "SUPPORTS") with
  | true => simp [h1, PredictedLabel.ofFever]
  | false =>
    cases h2 : (jsTrim s == "REFUTES") with
    | true => simp [h1, h2, PredictedLabel.ofFever]
    | false =>
      cases h3 : (jsTrim s == "NOT ENOUGH INFO") with
      | true => simp [h1, h2, h3, PredictedLabel.ofFever]
      | false => simp [h1, h2, h3, firstMatch]

/-- C4: `normalizePredictedLabel` is a total function on strings that, after
trimming, returns an exact canonical label immediately and otherwise applies
the case-insensitive cascade in the documented order (abbreviations and
underscored variants of NOT ENOUGH INFO, substring containment of
NOT ENOUGH INFO or its underscored form, then SUPPORTS, REFUTES, SUPPORTED,
REFUTED), returning INVALID when none match; it coincides everywhere with the
spec's cascade `normalizeSpec`, and satisfies the normalizer table:
"Supports." maps to SUPPORTS, "NEI" to NOT ENOUGH INFO, "I cannot determine"
to INVALID, "The evidence REFUTES this" to REFUTES, and the empty string to
INVALID. -/
theorem normalizePredictedLabel_matches_spec :
    (∀ s, normalizePredictedLabel s = normalizeSpec s)
    ∧ normalizePredictedLabel "Supports." = PredictedLabel.SUPPORTS
    ∧ normalizePredictedLabel "NEI" = PredictedLabel.NOT_ENOUGH_INFO
    ∧ normalizePredictedLabel "I cannot determine" = PredictedLabel.INVALID
    ∧ normalizePredictedLabel "The evidence REFUTES this" = PredictedLabel.REFUTES
    ∧ normalizePredictedLabel "" = PredictedLabel.INVALID :=
  ⟨normalize_eq_spec, by decide, by decide, by decide, by decide, by decide⟩

/-- C10: the NOT ENOUGH INFO abbreviation step matches only by full-string
equality of the trimmed, uppercased input against "NEI", "NOT_ENOUGH_INFO"
or "NOTENOUGHINFO"; any input that is not an exact canonical label, whose
uppercased form is not exactly one of these three strings, and which contains
none of the searched substrings, normalizes to INVALID — in particular
"NEI." (which contains "NEI" as a substring) normalizes to INVALID. -/
theorem nei_abbreviation_exact_match_only :
    (∀ s, feverOfString (jsTrim s) = none →
      jsToUpper (jsTrim s) ≠ "NEI" →
      jsToUpper (jsTrim s) ≠ "NOT_ENOUGH_INFO" →
      jsToUpper (jsTrim s) ≠ "NOTENOUGHINFO" →
      strIncludes (jsToUpper (jsTrim s)) "NOT ENOUGH INFO" = false →
      strIncludes (jsToUpper (jsTrim s)) "NOT_ENOUGH_INFO" = false →
      strIncludes (jsToUpper (jsTrim s)) "SUPPORTS" = false →
      strIncludes (jsToUpper (jsTrim s)) "REFUTES" = false →
      strIncludes (jsToUpper (jsTrim s)) "SUPPORTED" = false →
      strIncludes (jsToUpper (jsTrim s)) "REFUTED" = false →
      normalizePredictedLabel s = PredictedLabel.INVALID)
    ∧ normalizePredictedLabel "NEI." = PredictedLabel.INVALID := by
  constructor
  · intro s h0 h1 h2 h3 i1 i2 i3 i4 i5 i6
    have e1 : (jsToUpper (jsTrim s) == "NEI") = false := beq_eq_false_iff_ne.mpr h1
    have e2 : (jsToUpper (jsTrim s) == "NOT_ENOUGH_INFO") = false :=
      beq_eq_false_iff_ne.mpr h2
    have e3 : (jsToUpper (jsTrim s) == "NOTENOUGHINFO") = false :=
      beq_eq_false_iff_ne.mpr h3
    unfold normalizePredictedLabel
    simp [h0, e1, e2, e3, i1, i2, i3, i4, i5, i6]
  · decide

/-- C10 witness: the general INVALID condition applied at the concrete
input "NEI.". -/
theorem nei_abbreviation_exact_match_only_witness :
    normalizePredictedLabel "NEI." = PredictedLabel.INVALID :=
  nei_abbreviation_exact_match_only.1 "NEI." (by decide) (by decide) (by decide)
    (by decide) (by decide) (by decide) (by decide) (by decide) (by decide)
    (by decide)

/-! ## Confusion matrix (`src/lib/labels.ts`) -/

/-- The confusion matrix: one counter per (gold, predicted) pair of canonical
labels, plus a separate `invalid` counter.  Field `sr` is the cell for gold
SUPPORTS and predicted REFUTES, and so on (`s`/`r`/`n` abbreviate SUPPORTS,
REFUTES, NOT ENOUGH INFO). -/
structure ConfusionMatrix where
  ss : Nat
  sr : Nat
  sn : Nat
  rs : Nat
  rr : Nat
  rn : Nat
  ns : Nat
  nr : Nat
  nn : Nat
  invalid : Nat
deriving DecidableEq, Repr

/-- Embeds `createConfusionMatrix`: the all-zero matrix. -/
def createConfusionMatrix : ConfusionMatrix :=
  { ss := 0, sr := 0, sn := 0, rs := 0, rr := 0, rn := 0,
    ns := 0, nr := 0, nn := 0, invalid := 0 }

/-- Embeds `recordPrediction`: an INVALID prediction increments the invalid
counter; otherwise the (gold, predicted) cell is incremented. -/
def recordPrediction (cm : ConfusionMatrix) (gold : FeverLabel)
    (pred : PredictedLabel) : ConfusionMatrix :=
  match pred with
  | .INVALID => { cm with invalid := cm.invalid + 1 }
  | .SUPPORTS =>
    match gold with
    | .SUPPORTS => { cm with ss := cm.ss + 1 }
    | .REFUTES => { cm with rs := cm.rs + 1 }
    | .NOT_ENOUGH_INFO => { cm with ns := cm.ns + 1 }
  | .REFUTES =>
    match gold with
    | .SUPPORTS => { cm with sr := cm.sr + 1 }
    | .REFUTES => { cm with rr := cm.rr + 1 }
    | .NOT_ENOUGH_INFO => { cm with nr := cm.nr + 1 }
  | .NOT_ENOUGH_INFO =>
    match gold with
    | .SUPPORTS => { cm with sn := cm.sn + 1 }
    | .REFUTES => { cm with rn := cm.rn + 1 }
    | .NOT_ENOUGH_INFO => { cm with nn := cm.nn + 1 }

/-- Embeds `sumConfusionMatrix`: the invalid counter plus all nine cells. -/
def sumConfusionMatrix (cm : ConfusionMatrix) : Nat :=
  cm.invalid + cm.ss + cm.sr + cm.sn + cm.rs + cm.rr + cm.rn
    + cm.ns + cm.nr + cm.nn

/-- Embeds `correctFromConfusionMatrix`: the three diagonal cells. -/
def correctFromConfusionMatrix (cm : ConfusionMatrix) : Nat :=
  cm.ss + cm.rr + cm.nn

/-- The derived accuracy of `computeSummaryFromConfusion`:
`total === 0 ? 0 : correct / total`, over the rationals. -/
def accuracyOfCM (cm : ConfusionMatrix) : ℚ :=
  if sumConfusionMatrix cm = 0 then 0
  else (correctFromConfusionMatrix cm : ℚ) / (sumConfusionMatrix cm : ℚ)

/-- The derived invalid rate of `computeSummaryFromConfusion`:
`total === 0 ? 0 : invalid / total`, over the rationals. -/
def invalidRateOfCM (cm : ConfusionMatrix) : ℚ :=
  if sumConfusionMatrix cm = 0 then 0
  else (cm.invalid : ℚ) / (sumConfusionMatrix cm : ℚ)

/-- Folding a sequence of (gold, predicted) pairs into a matrix, as the
orchestrator does one `recordPrediction` call per completed example. -/
def recordAll (cm : ConfusionMatrix)
    (pairs : List (FeverLabel × PredictedLabel)) : ConfusionMatrix :=
  pairs.foldl (fun m gp => recordPrediction m gp.1 gp.2) cm

theorem sum_recordPrediction (cm : ConfusionMatrix) (g : FeverLabel)
    (p : PredictedLabel) :
    sumConfusionMatrix (recordPrediction cm g p) = sumConfusionMatrix cm + 1 := by
  cases p <;> cases g <;> simp [recordPrediction, sumConfusionMatrix] <;> omega

theorem sum_recordAll (pairs : List (FeverLabel × PredictedLabel)) :
    ∀ cm, sumConfusionMatrix (recordAll cm pairs)
      = sumConfusionMatrix cm + pairs.length := by
  induction pairs with
  | nil => intro cm; simp [recordAll]
  | cons gp rest ih =>
    intro cm
    simp only [recordAll, List.foldl_cons, List.length_cons]
    rw [show (rest.foldl (fun m gp => recordPrediction m gp.1 gp.2)
        (recordPrediction cm gp.1 gp.2)) = recordAll (recordPrediction cm gp.1 gp.2) rest from rfl]
    rw [ih, sum_recordPrediction]
    omega

theorem correct_le_sum (cm : ConfusionMatrix) :
    correctFromConfusionMatrix cm ≤ sumConfusionMatrix cm := by
  simp [correctFromConfusionMatrix, sumConfusionMatrix]; omega

theorem invalid_le_sum (cm : ConfusionMatrix) :
    cm.invalid ≤ sumConfusionMatrix cm := by
  simp [sumConfusionMatrix]; omega

theorem accuracyOfCM_mem_unit (cm : ConfusionMatrix) :
    0 ≤ accuracyOfCM cm ∧ accuracyOfCM cm ≤ 1 := by
  unfold accuracyOfCM
  by_cases h : sumConfusionMatrix cm = 0
  · simp [h]
  · have hpos : (0 : ℚ) < (sumConfusionMatrix cm : ℚ) := by
      exact_mod_cast Nat.pos_of_ne_zero h
    rw [if_neg h]
    constructor
    · positivity
    · rw [div_le_one hpos]
      exact_mod_cast correct_le_sum cm

theorem invalidRateOfCM_mem_unit (cm : ConfusionMatrix) :
    0 ≤ invalidRateOfCM cm ∧ invalidRateOfCM cm ≤ 1 := by
  unfold invalidRateOfCM
  by_cases h : sumConfusionMatrix cm = 0
  · simp [h]
  · have hpos : (0 : ℚ) < (sumConfusionMatrix cm : ℚ) := by
      exact_mod_cast Nat.pos_of_ne_zero h
    rw [if_neg h]
    constructor
    · positivity
    · rw [div_le_one hpos]
      exact_mod_cast invalid_le_sum cm

/-- C3: for every sequence of (gold, predicted) pairs folded via
`recordPrediction` from `createConfusionMatrix`, and at every prefix of the
sequence (every intermediate snapshot), the sum of all nine cells plus the
invalid counter equals the number of pairs folded in so far, and the derived
accuracy and invalid rate lie in [0, 1]. -/
theorem confusion_matrix_invariant
    (pairs : List (FeverLabel × PredictedLabel)) (n : Nat) :
    sumConfusionMatrix (recordAll createConfusionMatrix (pairs.take n))
        = (pairs.take n).length
    ∧ 0 ≤ accuracyOfCM (recordAll createConfusionMatrix (pairs.take n))
    ∧ accuracyOfCM (recordAll createConfusionMatrix (pairs.take n)) ≤ 1
    ∧ 0 ≤ invalidRateOfCM (recordAll createConfusionMatrix (pairs.take n))
    ∧ invalidRateOfCM (recordAll createConfusionMatrix (pairs.take n)) ≤ 1 := by
  refine ⟨?_, (accuracyOfCM_mem_unit _).1, (accuracyOfCM_mem_unit _).2,
    (invalidRateOfCM_mem_unit _).1, (invalidRateOfCM_mem_unit _).2⟩
  rw [sum_recordAll]
  simp [createConfusionMatrix, sumConfusionMatrix]

/-! ## Per-example evaluation (`src/lib/evaluate.ts`) -/

/-- A dataset example id (`id: number | string`); numeric ids are modelled
as naturals. -/
inductive DatasetId where
  | num (n : Nat)
  | str (s : String)
deriving DecidableEq, Repr

/-- Token usage extracted from the provider response. -/
structure Usage where
  promptTokens : Option Nat
  completionTokens : Option Nat
  totalTokens : Option Nat
deriving DecidableEq, Repr

/-- Embeds `FeverExample`. -/
structure FeverExample where
  id : DatasetId
  claim : String
  label : FeverLabel
  verifiable : Option String := none
deriving DecidableEq, Repr

/-- Embeds `ModelEvalItem`; optional fields are `Option`s, and latency is
modelled as a natural number of milliseconds. -/
structure ModelEvalItem where
  datasetId : DatasetId
  exampleHash : Option String
  claim : String
  goldLabel : FeverLabel
  predictedLabel : PredictedLabel
  rawText : String
  ok : Bool
  latencyMs : Nat
  cached : Option Bool
  error : Option String
  usage : Option Usage
deriving DecidableEq, Repr

/-- The body of `evaluateExample`'s try/catch.  The external provider call
(`generateText`) is passed in as `call`: success carries the optional
response text and usage, failure carries the thrown error's message.
`buildPrompt` throws inside the try block when the claim is empty after
trimming, so that case lands in the catch branch before any call is made.
The latency measurement is external and passed as `latencyMs`. -/
def evaluateExampleBody (ex : FeverExample)
    (call : Except String (Option String × Option Usage))
    (latencyMs : Nat) : ModelEvalItem :=
  if jsTrim ex.claim == "" then
    { datasetId := ex.id, exampleHash := none, claim := ex.claim,
      goldLabel := ex.label, predictedLabel := .INVALID, rawText := "",
      ok := false, latencyMs := latencyMs, cached := none,
      error := some "Claim must be a non-empty string", usage := none }
  else
    match call with
    | .ok (textOpt, usage) =>
      let rawText := textOpt.getD ""
      let predictedLabel := normalizePredictedLabel rawText
      { datasetId := ex.id, exampleHash := none, claim := ex.claim,
        goldLabel := ex.label, predictedLabel := predictedLabel,
        rawText := rawText,
        ok := predictedLabel == PredictedLabel.ofFever ex.label,
        latencyMs := latencyMs, cached := none, error := none, usage := usage }
    | .error msg =>
      { datasetId := ex.id, exampleHash := none, claim := ex.claim,
        goldLabel := ex.label, predictedLabel := .INVALID, rawText := "",
        ok := false, latencyMs := latencyMs, cached := none,
        error := some msg, usage := none }

/-- Embeds `evaluateExample` including its parameter-validation guards:
an empty API key or model id rejects before the try block. -/
def evaluateExample (apiKey modelId : String) (ex : FeverExample)
    (call : Except String (Option String × Option Usage))
    (latencyMs : Nat) : Except String ModelEvalItem :=
  if apiKey == "" then .error "OpenRouter API key must be a non-empty string"
  else if modelId == "" then .error "Model ID must be a non-empty string"
  else .ok (evaluateExampleBody ex call latencyMs)

/-- A concrete example used as a test vector. -/
def exampleA : FeverExample :=
  { id := .num 1, claim := "Paris is in France", label := .SUPPORTS }

/-- C1 counterexample: a provider call that completes without error
(`Except.ok`) whose normalized prediction ("REFUTES") differs from the gold
label (SUPPORTS) yields an outcome with `ok = false`, refuting the claim that
`ok` is true whenever the call completed without error. -/
theorem ok_flag_counterexample :
    (Except.ok (some "REFUTES", none)
        : Except String (Option String × Option Usage)).isOk = true
    ∧ (evaluateExampleBody exampleA (.ok (some "REFUTES", none)) 5).ok = false :=
  ⟨rfl, by decide⟩

/-- C1 (amended): the `ok` flag of an outcome is true iff the provider call
completed without error AND the normalized predicted label equals the gold
label (and the claim was non-empty, so the prompt builder did not throw);
`ok` is correctness of the prediction, not success of the call. -/
theorem ok_flag_iff_correct (ex : FeverExample)
    (call : Except String (Option String × Option Usage)) (lat : Nat) :
    (evaluateExampleBody ex call lat).ok = true ↔
      (jsTrim ex.claim ≠ ""
        ∧ ∃ textOpt usage, call = .ok (textOpt, usage)
            ∧ normalizePredictedLabel (textOpt.getD "")
                = PredictedLabel.ofFever ex.label) := by
  unfold evaluateExampleBody
  cases hc : (jsTrim ex.claim == "") with
  | true =>
    simp only [hc, if_true]
    simp [beq_iff_eq] at hc
    simp [hc]
  | false =>
    have hne : jsTrim ex.claim ≠ "" := by
      intro h; rw [h] at hc; simp at hc
    simp only [hc, Bool.false_eq_true, if_false]
    cases call with
    | ok p =>
      obtain ⟨textOpt, usage⟩ := p
      simp [hne, beq_iff_eq]
    | error msg =>
      simp [hne]

/-- C2: for every example whose provider call rejects or throws,
`evaluateExample` returns (never rejects) an outcome with `ok = false`,
`predictedLabel = INVALID` and the error message populated (the thrown
message itself whenever the claim was non-empty), and folding that outcome
into a confusion matrix via `recordPrediction` counts it as an invalid
prediction; a per-example provider failure therefore never aborts the
model's run. -/
theorem provider_failure_nonfatal (apiKey modelId : String)
    (ex : FeverExample) (msg : String) (lat : Nat)
    (hk : apiKey ≠ "") (hm : modelId ≠ "") :
    (evaluateExample apiKey modelId ex (.error msg) lat).isOk = true
    ∧ ∀ item, evaluateExample apiKey modelId ex (.error msg) lat
          = Except.ok item →
        item.ok = false
        ∧ item.predictedLabel = PredictedLabel.INVALID
        ∧ item.error.isSome = true
        ∧ (jsTrim ex.claim ≠ "" → item.error = some msg)
        ∧ ∀ cm : ConfusionMatrix,
            (recordPrediction cm item.goldLabel item.predictedLabel).invalid
                = cm.invalid + 1
            ∧ sumConfusionMatrix
                  (recordPrediction cm item.goldLabel item.predictedLabel)
                = sumConfusionMatrix cm + 1 := by
  have hk' : (apiKey == "") = false := beq_eq_false_iff_ne.mpr hk
  have hm' : (modelId == "") = false := beq_eq_false_iff_ne.mpr hm
  unfold evaluateExample
  simp only [hk', hm', Bool.false_eq_true, if_false]
  refine ⟨rfl, ?_⟩
  intro item heq
  have hitem : item = evaluateExampleBody ex (.error msg) lat :=
    (Except.ok.injEq _ _).mp heq.symm
  subst hitem
  unfold evaluateExampleBody
  cases hc : (jsTrim ex.claim == "") with
  | true =>
    simp only [hc, if_true]
    refine ⟨by trivial, by trivial, by trivial, ?_, ?_⟩
    · intro hne
      exact absurd (by simpa [beq_iff_eq] using hc) hne
    · intro cm
      constructor
      · simp [recordPrediction]
      · exact sum_recordPrediction cm ex.label .INVALID
  | false =>
    simp only [hc, Bool.false_eq_true, if_false]
    refine ⟨by trivial, by trivial, by trivial, fun _ => by trivial, ?_⟩
    intro cm
    constructor
    · simp [recordPrediction]
    · exact sum_recordPrediction cm ex.label .INVALID

/-- C2 witness: the failure path at a concrete example, key, model and
message. -/
theorem provider_failure_nonfatal_witness :
    (evaluateExample "k" "m" exampleA (.error "boom") 0).isOk = true
    ∧ (evaluateExampleBody exampleA (.error "boom") 0).ok = false
    ∧ (evaluateExampleBody exampleA (.error "boom") 0).predictedLabel
        = PredictedLabel.INVALID
    ∧ (evaluateExampleBody exampleA (.error "boom") 0).error = some "boom"
    ∧ (recordPrediction createConfusionMatrix
          (evaluateExampleBody exampleA (.error "boom") 0).goldLabel
          (evaluateExampleBody exampleA (.error "boom") 0).predictedLabel).invalid
        = createConfusionMatrix.invalid + 1 := by
  have h := provider_failure_nonfatal "k" "m" exampleA "boom" 0
    (by decide) (by decide)
  have h2 := h.2 (evaluateExampleBody exampleA (.error "boom") 0) rfl
  exact ⟨h.1, h2.1, h2.2.1, h2.2.2.2.1 (by decide),
    (h2.2.2.2.2 createConfusionMatrix).1⟩

/-! ## Cache store (`src/lib/cache.ts`, `src/hooks/useEvaluationRun.ts`) -/

/-- Embeds `CacheEntry`.  The version tag `v` is a natural so that entries
with a version other than 1 are representable (the loader skips them). -/
structure CacheEntry where
  v : Nat
  datasetPath : String
  modelId : String
  exampleId : String
  exampleHash : String
  item : ModelEvalItem
  cachedAtIso : String
deriving DecidableEq, Repr

/-- A JavaScript `Map<string, CacheEntry>` modelled as an association list
in insertion order. -/
abbrev CacheMap : Type := List (String × CacheEntry)

/-- Embeds `Map.get`: the value bound to `k`, if any. -/
def mapGet (m : CacheMap) (k : String) : Option CacheEntry :=
  match m with
  | [] => none
  | (k', v) :: rest => if k' = k then some v else mapGet rest k

/-- Embeds `Map.set`: replace an existing binding in place, else append. -/
def mapSet (m : CacheMap) (k : String) (v : CacheEntry) : CacheMap :=
  match m with
  | [] => [(k, v)]
  | (k', v') :: rest =>
    if k' = k then (k, v) :: rest else (k', v') :: mapSet rest k v

/-- The cache-hit test of the orchestrator (`useEvaluationRun.ts`):
`hit && hit.exampleHash === exHash && hit.modelId === modelId` — an entry
is served from the cache only when the stored entry's hash and model id
both exactly match the current ones. -/
def cacheLookup (m : CacheMap) (exId exHash modelId : String) :
    Option CacheEntry :=
  match mapGet m exId with
  | some hit =>
    if hit.exampleHash = exHash ∧ hit.modelId = modelId then some hit else none
  | none => none

/-- C5: a cache lookup yields a hit exactly when the map binds the example
id to an entry whose `exampleHash` equals the current hash and whose
`modelId` equals the current model id; an entry stored under a different
hash or model id is a miss, never a stale hit. -/
theorem cacheLookup_exact_match :
    (∀ (m : CacheMap) (exId exHash modelId : String) (e : CacheEntry),
      cacheLookup m exId exHash modelId = some e ↔
        (mapGet m exId = some e ∧ e.exampleHash = exHash ∧ e.modelId = modelId))
    ∧ (∀ (m : CacheMap) (exId exHash modelId : String) (e : CacheEntry),
        mapGet m exId = some e →
        (e.exampleHash ≠ exHash ∨ e.modelId ≠ modelId) →
        cacheLookup m exId exHash modelId = none) := by
  constructor
  · intro m exId exHash modelId e
    unfold cacheLookup
    cases hg : mapGet m exId with
    | none => simp
    | some hit =>
      dsimp only
      by_cases hcond : hit.exampleHash = exHash ∧ hit.modelId = modelId
      · simp only [hcond, if_pos]
        constructor
        · rintro h
          obtain rfl : hit = e := by simpa using h
          exact ⟨rfl, hcond⟩
        · rintro ⟨he, _⟩
          obtain rfl : e = hit := by simpa using he.symm
          rfl
      · rw [if_neg hcond]
        constructor
        · intro h; exact absurd h (by simp)
        · rintro ⟨he, hh, hm⟩
          obtain rfl : hit = e := by simpa using he
          exact absurd ⟨hh, hm⟩ hcond
  · intro m exId exHash modelId e hg hmiss
    unfold cacheLookup
    rw [hg]
    dsimp only
    rw [if_neg]
    rcases hmiss with h | h
    · exact fun hc => h hc.1
    · exact fun hc => h hc.2

/-- A concrete evaluation item used as a test vector for the cache claims. -/
def itemA : ModelEvalItem :=
  { datasetId := .num 1, exampleHash := some "h1",
    claim := "Paris is in France", goldLabel := .SUPPORTS,
    predictedLabel := .SUPPORTS, rawText := "SUPPORTS", ok := true,
    latencyMs := 12, cached := some false, error := none,
    usage := some { promptTokens := some 9, completionTokens := some 1,
                    totalTokens := some 10 } }

/-- A concrete cache entry used as a test vector for the cache claims. -/
def entryA : CacheEntry :=
  { v := 1, datasetPath := "val/train.jsonl", modelId := "m1",
    exampleId := "1", exampleHash := "h1", item := itemA,
    cachedAtIso := "2025-12-12T00:00:00.000Z" }

/-- C5 witness: an entry cached under hash "h1" is a hit only at hash "h1"
and model "m1"; looked up with hash "h2" it is a miss. -/
theorem cacheLookup_exact_match_witness :
    cacheLookup [("1", entryA)] "1" "h1" "m1" = some entryA
    ∧ cacheLookup [("1", entryA)] "1" "h2" "m1" = none := by
  constructor
  · exact (cacheLookup_exact_match.1 [("1", entryA)] "1" "h1" "m1" entryA).mpr
      ⟨by decide, by decide, by decide⟩
  · exact cacheLookup_exact_match.2 [("1", entryA)] "1" "h2" "m1" entryA
      (by decide) (Or.inl (by decide))

/-! ## JSONL line codec

`saveModelCache` serializes each entry with `JSON.stringify` and
`loadModelCache` parses each line with `JSON.parse`; both are platform
functions, modelled here by an executable codec over the fixed record
shape of `CacheEntry`.  The encoder canonicalizes field order and writes
absent optional fields as `null` (`JSON.stringify` instead omits them;
both conventions round-trip to the same absent value), and escapes
quotes, backslashes and control characters so that an encoded record
never contains a raw newline. -/

/-- The character list of a string literal. -/
def lit (s : String) : List Char := s.toList

/-- Decimal digit character. -/
def digitChar (n : Nat) : Char := Char.ofNat (48 + n)

/-- Is `c` a decimal digit? -/
def isDigitCh (c : Char) : Bool := 48 ≤ c.toNat && c.toNat ≤ 57

/-- Value of a decimal digit character. -/
def digitVal (c : Char) : Nat := c.toNat - 48

/-- Decimal digits of `n`, most significant first, with structural fuel. -/
def natDigitsAux : Nat → Nat → List Char
  | 0, _ => []
  | fuel + 1, n =>
    if n < 10 then [digitChar n]
    else natDigitsAux fuel (n / 10) ++ [digitChar (n % 10)]

/-- Decimal digits of `n`. -/
def natToDigits (n : Nat) : List Char := natDigitsAux (n + 1) n

/-- Lower-case hexadecimal digit character. -/
def hexDigitChar (n : Nat) : Char :=
  if n < 10 then Char.ofNat (48 + n) else Char.ofNat (87 + n)

/-- Value of a hexadecimal digit character. -/
def hexVal (c : Char) : Option Nat :=
  if 48 ≤ c.toNat ∧ c.toNat ≤ 57 then some (c.toNat - 48)
  else if 97 ≤ c.toNat ∧ c.toNat ≤ 102 then some (c.toNat - 87)
  else if 65 ≤ c.toNat ∧ c.toNat ≤ 70 then some (c.toNat - 55)
  else none

/-- JSON string escaping of one character. -/
def escChar (c : Char) : List Char :=
  if c = '"' then ['\\', '"']
  else if c = '\\' then ['\\', '\\']
  else if c = '\n' then ['\\', 'n']
  else if c = '\r' then ['\\', 'r']
  else if c = '\t' then ['\\', 't']
  else if c.toNat < 32 then
    ['\\', 'u', '0', '0', hexDigitChar (c.toNat / 16), hexDigitChar (c.toNat % 16)]
  else [c]

/-- JSON string escaping of a character list. -/
def escList : List Char → List Char
  | [] => []
  | c :: cs => escChar c ++ escList cs

/-- JSON encoding of a string (quotes included). -/
def encString (s : String) : List Char := '"' :: (escList s.toList ++ ['"'])

/-- JSON encoding of a natural number. -/
def encNat (n : Nat) : List Char := natToDigits n

/-- JSON encoding of a boolean. -/
def encBool (b : Bool) : List Char := if b then lit "true" else lit "false"

/-- JSON encoding of an optional value; `none` becomes `null`. -/
def encOptVia {α : Type} (enc : α → List Char) : Option α → List Char
  | none => lit "null"
  | some v => enc v

/-- The serialized form of an object field with a leading comma. -/
def keyLit (key : String) : List Char := ',' :: '"' :: (lit key ++ '"' :: ':' :: [])

/-- Encode an object field with a leading comma. -/
def encField (key : String) (v : List Char) : List Char := keyLit key ++ v

/-- The string of a predicted label. -/
def predToString : PredictedLabel → String
  | .SUPPORTS => "SUPPORTS"
  | .REFUTES => "REFUTES"
  | .NOT_ENOUGH_INFO => "NOT ENOUGH INFO"
  | .INVALID => "INVALID"

/-- The predicted label denoted by a string, if any. -/
def predOfString (x : String) : Option PredictedLabel :=
  match feverOfString x with
  | some l => some (.ofFever l)
  | none => if x == "INVALID" then some .INVALID else none

/-- JSON encoding of a dataset id: numbers as digits, strings quoted. -/
def encDatasetId : DatasetId → List Char
  | .num n => encNat n
  | .str s => encString s

/-- JSON encoding of a usage record. -/
def encUsage (u : Usage) : List Char :=
  lit "\x7b\"promptTokens\":" ++ encOptVia encNat u.promptTokens
    ++ encField "completionTokens" (encOptVia encNat u.completionTokens)
    ++ encField "totalTokens" (encOptVia encNat u.totalTokens)
    ++ lit "\x7d"

/-- JSON encoding of a `ModelEvalItem` in declaration field order. -/
def encItem (it : ModelEvalItem) : List Char :=
  lit "\x7b\"datasetId\":" ++ encDatasetId it.datasetId
    ++ encField "exampleHash" (encOptVia encString it.exampleHash)
    ++ encField "claim" (encString it.claim)
    ++ encField "goldLabel" (encString (feverToString it.goldLabel))
    ++ encField "predictedLabel" (encString (predToString it.predictedLabel))
    ++ encField "rawText" (encString it.rawText)
    ++ encField "ok" (encBool it.ok)
    ++ encField "latencyMs" (encNat it.latencyMs)
    ++ encField "cached" (encOptVia encBool it.cached)
    ++ encField "error" (encOptVia encString it.error)
    ++ encField "usage" (encOptVia encUsage it.usage)
    ++ lit "\x7d"

/-- The serialized fields of a `CacheEntry` between its braces. -/
def encodeEntryMid (e : CacheEntry) : List Char :=
  lit "\"v\":" ++ encNat e.v
    ++ encField "datasetPath" (encString e.datasetPath)
    ++ encField "modelId" (encString e.modelId)
    ++ encField "exampleId" (encString e.exampleId)
    ++ encField "exampleHash" (encString e.exampleHash)
    ++ encField "item" (encItem e.item)
    ++ encField "cachedAtIso" (encString e.cachedAtIso)

/-- The serialized form of one `CacheEntry` (one JSONL line). -/
def encodeEntry (e : CacheEntry) : List Char :=
  '\x7b' :: encodeEntryMid e ++ ['\x7d']

/-- Consume an expected literal. -/
def parseLit (k : List Char) (l : List Char) : Option (List Char) :=
  match k, l with
  | [], l => some l
  | _ :: _, [] => none
  | a :: ks, c :: cs => if a = c then parseLit ks cs else none

/-- Unescape a single-character escape. -/
def unescChar (e : Char) : Option Char :=
  if e = '"' then some '"'
  else if e = '\\' then some '\\'
  else if e = 'n' then some '\n'
  else if e = 'r' then some '\r'
  else if e = 't' then some '\t'
  else none

/-- Parse the body of a JSON string up to its closing quote. -/
def parseStringBody : List Char → Option (List Char × List Char)
  | [] => none
  | c :: r =>
    if c = '"' then some ([], r)
    else if c = '\\' then
      match r with
      | [] => none
      | e :: r2 =>
        if e = 'u' then
          match r2 with
          | a :: b :: c3 :: d :: r3 =>
            match hexVal a, hexVal b, hexVal c3, hexVal d with
            | some ha, some hb, some hc, some hd =>
              match parseStringBody r3 with
              | some (s, rest) =>
                some (Char.ofNat (((ha * 16 + hb) * 16 + hc) * 16 + hd) :: s, rest)
              | none => none
            | _, _, _, _ => none
          | _ => none
        else
          match unescChar e with
          | some ch =>
            match parseStringBody r2 with
            | some (s, rest) => some (ch :: s, rest)
            | none => none
          | none => none
    else
      match parseStringBody r with
      | some (s, rest) => some (c :: s, rest)
      | none => none

/-- Parse a quoted JSON string to a character list. -/
def parseString (l : List Char) : Option (List Char × List Char) :=
  match l with
  | c :: r => if c = '"' then parseStringBody r else none
  | [] => none

/-- Parse a quoted JSON string to a `String`. -/
def parseStr (l : List Char) : Option (String × List Char) :=
  (parseString l).map fun p => (⟨p.1⟩, p.2)

/-- Accumulated value of a digit list. -/
def digitsVal (ds : List Char) : Nat :=
  ds.foldl (fun a c => a * 10 + digitVal c) 0

/-- Parse a natural number (one or more decimal digits). -/
def parseNat (l : List Char) : Option (Nat × List Char) :=
  let ds := l.takeWhile isDigitCh
  if ds.isEmpty then none
  else some (digitsVal ds, l.dropWhile isDigitCh)

/-- Parse a boolean literal. -/
def parseBool (l : List Char) : Option (Bool × List Char) :=
  match parseLit (lit "true") l with
  | some r => some (true, r)
  | none =>
    match parseLit (lit "false") l with
    | some r => some (false, r)
    | none => none

/-- Parse `null` or a value. -/
def parseOptVia {α : Type} (p : List Char → Option (α × List Char))
    (l : List Char) : Option (Option α × List Char) :=
  match parseLit (lit "null") l with
  | some r => some (none, r)
  | none =>
    match p l with
    | some (v, r) => some (some v, r)
    | none => none

/-- Parse a gold label string. -/
def parseFever (l : List Char) : Option (FeverLabel × List Char) :=
  match parseStr l with
  | some (s, r) =>
    match feverOfString s with
    | some fl => some (fl, r)
    | none => none
  | none => none

/-- Parse a predicted label string. -/
def parsePred (l : List Char) : Option (PredictedLabel × List Char) :=
  match parseStr l with
  | some (s, r) =>
    match predOfString s with
    | some p => some (p, r)
    | none => none
  | none => none

/-- Parse a dataset id: a quoted string or a number. -/
def parseDatasetId (l : List Char) : Option (DatasetId × List Char) :=
  match l with
  | [] => none
  | c :: _ =>
    if c = '"' then (parseStr l).map fun p => (.str p.1, p.2)
    else (parseNat l).map fun p => (.num p.1, p.2)

/-- Parse one comma-prefixed object field. -/
def parseField {α : Type} (key : String)
    (p : List Char → Option (α × List Char)) (l : List Char) :
    Option (α × List Char) :=
  match parseLit (keyLit key) l with
  | some r => p r
  | none => none

/-- Parse a usage record. -/
def parseUsage (l : List Char) : Option (Usage × List Char) :=
  (parseLit (lit "\x7b\"promptTokens\":") l).bind fun r0 =>
  (parseOptVia parseNat r0).bind fun p1 =>
  (parseField "completionTokens" (parseOptVia parseNat) p1.2).bind fun p2 =>
  (parseField "totalTokens" (parseOptVia parseNat) p2.2).bind fun p3 =>
  (parseLit (lit "\x7d") p3.2).map fun r4 =>
  ({ promptTokens := p1.1, completionTokens := p2.1, totalTokens := p3.1 }, r4)

/-- Parse a `ModelEvalItem`. -/
def parseItem (l : List Char) : Option (ModelEvalItem × List Char) :=
  (parseLit (lit "\x7b\"datasetId\":") l).bind fun r0 =>
  (parseDatasetId r0).bind fun p1 =>
  (parseField "exampleHash" (parseOptVia parseStr) p1.2).bind fun p2 =>
  (parseField "claim" parseStr p2.2).bind fun p3 =>
  (parseField "goldLabel" parseFever p3.2).bind fun p4 =>
  (parseField "predictedLabel" parsePred p4.2).bind fun p5 =>
  (parseField "rawText" parseStr p5.2).bind fun p6 =>
  (parseField "ok" parseBool p6.2).bind fun p7 =>
  (parseField "latencyMs" parseNat p7.2).bind fun p8 =>
  (parseField "cached" (parseOptVia parseBool) p8.2).bind fun p9 =>
  (parseField "error" (parseOptVia parseStr) p9.2).bind fun p10 =>
  (parseField "usage" (parseOptVia parseUsage) p10.2).bind fun p11 =>
  (parseLit (lit "\x7d") p11.2).map fun r =>
  ({ datasetId := p1.1, exampleHash := p2.1, claim := p3.1, goldLabel := p4.1,
     predictedLabel := p5.1, rawText := p6.1, ok := p7.1, latencyMs := p8.1,
     cached := p9.1, error := p10.1, usage := p11.1 }, r)

/-- Parse a `CacheEntry`. -/
def parseEntry (l : List Char) : Option (CacheEntry × List Char) :=
  (parseLit (lit "\x7b\"v\":") l).bind fun r0 =>
  (parseNat r0).bind fun p1 =>
  (parseField "datasetPath" parseStr p1.2).bind fun p2 =>
  (parseField "modelId" parseStr p2.2).bind fun p3 =>
  (parseField "exampleId" parseStr p3.2).bind fun p4 =>
  (parseField "exampleHash" parseStr p4.2).bind fun p5 =>
  (parseField "item" parseItem p5.2).bind fun p6 =>
  (parseField "cachedAtIso" parseStr p6.2).bind fun p7 =>
  (parseLit (lit "\x7d") p7.2).map fun r =>
  ({ v := p1.1, datasetPath := p2.1, modelId := p3.1, exampleId := p4.1,
     exampleHash := p5.1, item := p6.1, cachedAtIso := p7.1 }, r)

/-- The model of `JSON.parse` on one trimmed line: a line decodes to an
entry only when the whole line is one serialized entry. -/
def decodeEntryL (l : List Char) : Option CacheEntry :=
  match parseEntry l with
  | some (e, []) => some e
  | _ => none

/-! ## Cache file load/save (`src/lib/cache.ts`) -/

/-- A file-system read error: the file does not exist (`ENOENT`) or any
other failure. -/
inductive FsError where
  | enoent
  | other (msg : String)
deriving DecidableEq, Repr

/-- Prepend a character to the first line of a split. -/
def consLine (c : Char) : List (List Char) → List (List Char)
  | [] => [[c]]
  | line :: lines => (c :: line) :: lines

/-- Embeds `text.split(/\r?\n/)`: split on `\n`, consuming an immediately
preceding `\r`; a lone `\r` does not split. -/
def splitLinesL : List Char → List (List Char)
  | [] => [[]]
  | [c] => if c = '\n' then [[], []] else [[c]]
  | c :: c2 :: rest =>
    if c = '\n' then [] :: splitLinesL (c2 :: rest)
    else if c = '\r' ∧ c2 = '\n' then [] :: splitLinesL rest
    else consLine c (splitLinesL (c2 :: rest))

/-- Embeds `rows.join("\n")`. -/
def joinNl : List (List Char) → List Char
  | [] => []
  | [r] => r
  | r :: rs => r ++ '\n' :: joinNl rs

/-- The file content written by `saveModelCache`: the serialized entries
joined by newlines, with a trailing newline when nonempty
(`rows.join("\n") + (rows.length ? "\n" : "")`). -/
def saveChars (entries : CacheMap) : List Char :=
  let rows := entries.map fun kv => encodeEntry kv.2
  joinNl rows ++ (if rows.isEmpty then [] else ['\n'])

/-- Embeds `saveModelCache` as the content string it writes. -/
def saveModelCache (entries : CacheMap) : String := ⟨saveChars entries⟩

/-- The line-processing loop of `loadModelCache`: trim each line, skip
blank lines, skip lines `JSON.parse` rejects (with a warning), skip parsed
entries whose version is not 1 or whose example id is falsy, and `Map.set`
the rest keyed by their example id. -/
def processLines : List (List Char) → CacheMap → CacheMap
  | [], m => m
  | line :: rest, m =>
    let t := trimL line
    if t.isEmpty then processLines rest m
    else
      match decodeEntryL t with
      | none => processLines rest m
      | some e =>
        if e.v ≠ 1 then processLines rest m
        else if e.exampleId = "" then processLines rest m
        else processLines rest (mapSet m e.exampleId e)

/-- Embeds `loadModelCache`: the file read is passed in as `read`; a
missing file (`ENOENT`) yields an empty map, any other read failure
propagates, and file content is split into lines and processed. -/
def loadModelCache (read : Except FsError String) : Except FsError CacheMap :=
  match read with
  | .ok text => .ok (processLines (splitLinesL text.toList) [])
  | .error .enoent => .ok []
  | .error e => .error e

/-! ## Codec round-trip lemmas -/

theorem parseLit_append (k r : List Char) : parseLit k (k ++ r) = some r := by
  induction k with
  | nil => rfl
  | cons a ks ih => simp [parseLit, ih]

theorem parseLit_cons_ne {a b : Char} (ks cs : List Char) (h : a ≠ b) :
    parseLit (a :: ks) (b :: cs) = none := by
  simp [parseLit, h]

/-- The head character of a list (a non-digit placeholder when empty). -/
def headCh : List Char → Char
  | [] => '*'
  | c :: _ => c

theorem natDigitsAux_irrel (n : Nat) :
    ∀ fuel, n < fuel → natDigitsAux fuel n = natToDigits n := by
  induction n using Nat.strong_induction_on with
  | _ n ih =>
    intro fuel hf
    match fuel, hf with
    | fuel + 1, hf =>
      unfold natToDigits
      by_cases h10 : n < 10
      · simp [natDigitsAux, h10]
      · have hdiv : n / 10 < n := Nat.div_lt_self (by omega) (by omega)
        show natDigitsAux (fuel + 1) n = natDigitsAux (n + 1) n
        unfold natDigitsAux
        rw [if_neg h10, if_neg h10]
        rw [ih (n / 10) hdiv fuel (by omega), ih (n / 10) hdiv n (by omega)]

theorem natToDigits_unfold (n : Nat) :
    natToDigits n =
      if n < 10 then [digitChar n]
      else natToDigits (n / 10) ++ [digitChar (n % 10)] := by
  by_cases h10 : n < 10
  · simp [natToDigits, natDigitsAux, h10]
  · have hdiv : n / 10 < n := Nat.div_lt_self (by omega) (by omega)
    rw [if_neg h10]
    show natDigitsAux (n + 1) n = _
    unfold natDigitsAux
    rw [if_neg h10, natDigitsAux_irrel (n / 10) n (by omega)]

theorem digitChar_props : ∀ m, m < 10 →
    isDigitCh (digitChar m) = true ∧ digitVal (digitChar m) = m := by decide

theorem natToDigits_all_digits (n : Nat) :
    ∀ c ∈ natToDigits n, isDigitCh c = true := by
  induction n using Nat.strong_induction_on with
  | _ n ih =>
    rw [natToDigits_unfold]
    by_cases h10 : n < 10
    · simp [h10]
      exact (digitChar_props n h10).1
    · have hdiv : n / 10 < n := Nat.div_lt_self (by omega) (by omega)
      rw [if_neg h10]
      intro c hc
      rcases List.mem_append.mp hc with h | h
      · exact ih (n / 10) hdiv c h
      · simp at h
        subst h
        exact (digitChar_props (n % 10) (Nat.mod_lt _ (by omega))).1

theorem natToDigits_ne_nil (n : Nat) : natToDigits n ≠ [] := by
  rw [natToDigits_unfold]
  by_cases h10 : n < 10 <;> simp [h10]

theorem digitsVal_append (ds : List Char) (c : Char) :
    digitsVal (ds ++ [c]) = digitsVal ds * 10 + digitVal c := by
  simp [digitsVal, List.foldl_append]

theorem digitsVal_natToDigits (n : Nat) : digitsVal (natToDigits n) = n := by
  induction n using Nat.strong_induction_on with
  | _ n ih =>
    rw [natToDigits_unfold]
    by_cases h10 : n < 10
    · simp [h10, digitsVal]
      exact (digitChar_props n h10).2
    · have hdiv : n / 10 < n := Nat.div_lt_self (by omega) (by omega)
      rw [if_neg h10, digitsVal_append, ih (n / 10) hdiv,
        (digitChar_props (n % 10) (Nat.mod_lt _ (by omega))).2]
      omega

theorem takeWhile_append_all (p : Char → Bool) (ds r : List Char)
    (hds : ∀ c ∈ ds, p c = true) (hr : r ≠ [] → p (headCh r) = false) :
    (ds ++ r).takeWhile p = ds ∧ (ds ++ r).dropWhile p = r := by
  induction ds with
  | nil =>
    simp only [List.nil_append]
    cases r with
    | nil => simp
    | cons c l =>
      have := hr (by simp)
      simp [headCh] at this
      simp [List.takeWhile, List.dropWhile, this]
  | cons d ds ih =>
    have hd : p d = true := hds d (by simp)
    have ihh := ih (fun c hc => hds c (by simp [hc]))
    simp [List.takeWhile, List.dropWhile, hd, ihh.1, ihh.2]

theorem parseNat_enc (n : Nat) (r : List Char)
    (hr : isDigitCh (headCh r) = false) :
    parseNat (encNat n ++ r) = some (n, r) := by
  have hsplit := takeWhile_append_all isDigitCh (natToDigits n) r
    (natToDigits_all_digits n) (fun _ => hr)
  unfold parseNat encNat
  rw [hsplit.1, hsplit.2]
  simp [List.isEmpty_iff, natToDigits_ne_nil, digitsVal_natToDigits]

theorem hexVal_hexDigitChar : ∀ m, m < 16 → hexVal (hexDigitChar m) = some m := by
  decide

theorem parseStringBody_esc (s : List Char) :
    ∀ r, parseStringBody (escList s ++ '"' :: r) = some (s, r) := by
  induction s with
  | nil =>
    intro r
    show parseStringBody ('"' :: r) = some ([], r)
    rw [parseStringBody.eq_def]
    simp
  | cons c cs ih =>
    intro r
    show parseStringBody ((escChar c ++ escList cs) ++ '"' :: r) = some (c :: cs, r)
    rw [List.append_assoc]
    by_cases h1 : c = '"'
    · subst h1
      rw [show escChar '"' = ['\\', '"'] from rfl]
      rw [List.cons_append, List.cons_append, List.nil_append, parseStringBody.eq_def]
      simp [unescChar, ih]
    · by_cases h2 : c = '\\'
      · subst h2
        rw [show escChar '\\' = ['\\', '\\'] from rfl]
        rw [List.cons_append, List.cons_append, List.nil_append, parseStringBody.eq_def]
        simp [unescChar, ih]
      · by_cases h3 : c = '\n'
        · subst h3
          rw [show escChar '\n' = ['\\', 'n'] from rfl]
          rw [List.cons_append, List.cons_append, List.nil_append, parseStringBody.eq_def]
          simp [unescChar, ih]
        · by_cases h4 : c = '\r'
          · subst h4
            rw [show escChar '\r' = ['\\', 'r'] from rfl]
            rw [List.cons_append, List.cons_append, List.nil_append, parseStringBody.eq_def]
            simp [unescChar, ih]
          · by_cases h5 : c = '\t'
            · subst h5
              rw [show escChar '\t' = ['\\', 't'] from rfl]
              rw [List.cons_append, List.cons_append, List.nil_append, parseStringBody.eq_def]
              simp [unescChar, ih]
            · by_cases h6 : c.toNat < 32
              · have he : escChar c =
                    ['\\', 'u', '0', '0', hexDigitChar (c.toNat / 16),
                      hexDigitChar (c.toNat % 16)] := by
                  unfold escChar
                  rw [if_neg h1, if_neg h2, if_neg h3, if_neg h4, if_neg h5, if_pos h6]
                have hhi : hexVal (hexDigitChar (c.toNat / 16)) = some (c.toNat / 16) :=
                  hexVal_hexDigitChar _ (by omega)
                have hlo : hexVal (hexDigitChar (c.toNat % 16)) = some (c.toNat % 16) :=
                  hexVal_hexDigitChar _ (Nat.mod_lt _ (by omega))
                rw [he]
                simp only [List.cons_append, List.nil_append]
                rw [parseStringBody.eq_def]
                simp only [show hexVal '0' = some 0 from rfl, hhi, hlo]
                simp [ih]
                rw [show c.toNat / 16 * 16 + c.toNat % 16 = c.toNat by omega]
                exact Char.ofNat_toNat c
              · have he : escChar c = [c] := by
                  unfold escChar
                  rw [if_neg h1, if_neg h2, if_neg h3, if_neg h4, if_neg h5, if_neg h6]
                rw [he]
                simp only [List.cons_append, List.nil_append]
                rw [parseStringBody.eq_def]
                simp [h1, h2, ih]

theorem parseStr_enc (s : String) (r : List Char) :
    parseStr (encString s ++ r) = some (s, r) := by
  unfold parseStr parseString encString
  rw [List.cons_append, List.append_assoc]
  simp only [reduceIte]
  rw [List.singleton_append, parseStringBody_esc]
  rfl

theorem parseBool_enc (b : Bool) (r : List Char) :
    parseBool (encBool b ++ r) = some (b, r) := by
  have htrue : parseLit (lit "true") (lit "false" ++ r) = none := by
    rw [show (lit "false" : List Char) ++ r = 'f' :: (lit "alse" ++ r) from rfl,
      show (lit "true" : List Char) = 't' :: lit "rue" from rfl]
    exact parseLit_cons_ne _ _ (by decide)
  cases b with
  | true =>
    rw [show encBool true = lit "true" from rfl]
    simp only [parseBool, parseLit_append]
  | false =>
    rw [show encBool false = lit "false" from rfl]
    simp only [parseBool, htrue, parseLit_append]

theorem parseLit_null_head (c : Char) (t : List Char) (h : c ≠ 'n') :
    parseLit (lit "null") (c :: t) = none := by
  rw [show (lit "null" : List Char) = 'n' :: lit "ull" from rfl]
  exact parseLit_cons_ne _ _ (fun he => h he.symm)

theorem parseOptStr_enc (v : Option String) (r : List Char) :
    parseOptVia parseStr (encOptVia encString v ++ r) = some (v, r) := by
  cases v with
  | none =>
    rw [show encOptVia encString none = lit "null" from rfl]
    simp only [parseOptVia, parseLit_append]
  | some s =>
    rw [show encOptVia encString (some s) = encString s from rfl]
    have hnull : parseLit (lit "null") (encString s ++ r) = none := by
      rw [show encString s ++ r = '"' :: (escList s.toList ++ ['"'] ++ r) from rfl]
      exact parseLit_null_head _ _ (by decide)
    simp only [parseOptVia, hnull, parseStr_enc]

theorem parseOptBool_enc (v : Option Bool) (r : List Char) :
    parseOptVia parseBool (encOptVia encBool v ++ r) = some (v, r) := by
  cases v with
  | none =>
    rw [show encOptVia encBool none = lit "null" from rfl]
    simp only [parseOptVia, parseLit_append]
  | some b =>
    rw [show encOptVia encBool (some b) = encBool b from rfl]
    have hnull : parseLit (lit "null") (encBool b ++ r) = none := by
      cases b with
      | true => exact parseLit_null_head 't' _ (by decide)
      | false => exact parseLit_null_head 'f' _ (by decide)
    simp only [parseOptVia, hnull, parseBool_enc]

theorem encNat_head_digit (n : Nat) :
    ∃ c t, encNat n = c :: t ∧ isDigitCh c = true := by
  unfold encNat
  cases he : natToDigits n with
  | nil => exact absurd he (natToDigits_ne_nil n)
  | cons c t =>
    exact ⟨c, t, rfl, natToDigits_all_digits n c (by rw [he]; simp)⟩

theorem parseOptNat_enc (v : Option Nat) (r : List Char)
    (hr : isDigitCh (headCh r) = false) :
    parseOptVia parseNat (encOptVia encNat v ++ r) = some (v, r) := by
  cases v with
  | none =>
    rw [show encOptVia encNat none = lit "null" from rfl]
    simp only [parseOptVia, parseLit_append]
  | some n =>
    rw [show encOptVia encNat (some n) = encNat n from rfl]
    obtain ⟨c, t, hct, hdig⟩ := encNat_head_digit n
    have hcn : c ≠ 'n' := by
      intro he
      subst he
      simp [isDigitCh] at hdig
    have hnull : parseLit (lit "null") (encNat n ++ r) = none := by
      rw [hct, List.cons_append]
      exact parseLit_null_head _ _ hcn
    simp only [parseOptVia, hnull, parseNat_enc n r hr]

theorem parseFever_enc (l : FeverLabel) (r : List Char) :
    parseFever (encString (feverToString l) ++ r) = some (l, r) := by
  simp only [parseFever, parseStr_enc]
  cases l <;> rfl

theorem parsePred_enc (p : PredictedLabel) (r : List Char) :
    parsePred (encString (predToString p) ++ r) = some (p, r) := by
  simp only [parsePred, parseStr_enc]
  cases p <;> rfl

theorem parseDatasetId_enc (d : DatasetId) (r : List Char)
    (hr : isDigitCh (headCh r) = false) :
    parseDatasetId (encDatasetId d ++ r) = some (d, r) := by
  cases d with
  | str s =>
    rw [show encDatasetId (.str s) = encString s from rfl]
    rw [show encString s ++ r = '"' :: (escList s.toList ++ ['"'] ++ r) from rfl]
    simp only [parseDatasetId, reduceIte]
    rw [show ('"' : Char) :: (escList s.toList ++ ['"'] ++ r) = encString s ++ r from rfl]
    rw [parseStr_enc]
    rfl
  | num n =>
    rw [show encDatasetId (.num n) = encNat n from rfl]
    obtain ⟨c, t, hct, hdig⟩ := encNat_head_digit n
    have hcq : ¬(c = '"') := by
      intro he
      subst he
      simp [isDigitCh] at hdig
    rw [hct, List.cons_append]
    simp only [parseDatasetId, if_neg hcq]
    rw [← List.cons_append, ← hct, parseNat_enc n r hr]
    rfl

theorem parseField_enc {α : Type} (key : String)
    (p : List Char → Option (α × List Char)) (v : α) (enc : List Char)
    (r : List Char) (hp : p (enc ++ r) = some (v, r)) :
    parseField key p (encField key enc ++ r) = some (v, r) := by
  unfold parseField encField
  rw [List.append_assoc, parseLit_append]
  exact hp

theorem parseOptUsage_null (u : Usage) (r : List Char) :
    parseLit (lit "null") (encUsage u ++ r) = none := by
  rw [show encUsage u ++ r
    = '\x7b' :: (lit "\"promptTokens\":" ++ encOptVia encNat u.promptTokens
        ++ encField "completionTokens" (encOptVia encNat u.completionTokens)
        ++ encField "totalTokens" (encOptVia encNat u.totalTokens)
        ++ lit "\x7d" ++ r) from by simp [encUsage, lit]]
  exact parseLit_null_head _ _ (by decide)

theorem parseNat_key (n : Nat) (key : String) (X : List Char) :
    parseNat (encNat n ++ (keyLit key ++ X)) = some (n, keyLit key ++ X) :=
  parseNat_enc n _ rfl

theorem parseOptNat_key (v : Option Nat) (key : String) (X : List Char) :
    parseOptVia parseNat (encOptVia encNat v ++ (keyLit key ++ X))
      = some (v, keyLit key ++ X) :=
  parseOptNat_enc v _ rfl

theorem parseOptNat_close (v : Option Nat) (X : List Char) :
    parseOptVia parseNat (encOptVia encNat v ++ (lit "\x7d" ++ X))
      = some (v, lit "\x7d" ++ X) :=
  parseOptNat_enc v _ rfl

theorem parseDatasetId_key (d : DatasetId) (key : String) (X : List Char) :
    parseDatasetId (encDatasetId d ++ (keyLit key ++ X))
      = some (d, keyLit key ++ X) :=
  parseDatasetId_enc d _ rfl

theorem parseUsage_enc (u : Usage) (r : List Char) :
    parseUsage (encUsage u ++ r) = some (u, r) := by
  unfold parseUsage encUsage
  simp only [parseField, encField, List.append_assoc]
  rw [parseLit_append]
  simp only [Option.some_bind]
  rw [parseOptNat_key]
  simp only [Option.some_bind]
  rw [parseLit_append]
  dsimp only
  rw [parseOptNat_key]
  simp only [Option.some_bind]
  rw [parseLit_append]
  dsimp only
  rw [parseOptNat_close]
  simp only [Option.some_bind]
  rw [parseLit_append]
  rfl

theorem parseOptUsage_enc (v : Option Usage) (r : List Char) :
    parseOptVia parseUsage (encOptVia encUsage v ++ r) = some (v, r) := by
  cases v with
  | none =>
    rw [show encOptVia encUsage none = lit "null" from rfl]
    simp only [parseOptVia, parseLit_append]
  | some u =>
    rw [show encOptVia encUsage (some u) = encUsage u from rfl]
    simp only [parseOptVia, parseOptUsage_null, parseUsage_enc]

set_option maxHeartbeats 1600000 in
theorem parseItem_enc (it : ModelEvalItem) (r : List Char) :
    parseItem (encItem it ++ r) = some (it, r) := by
  unfold parseItem encItem
  simp only [parseField, encField, List.append_assoc]
  rw [parseLit_append]
  simp only [Option.some_bind]
  rw [parseDatasetId_key]
  simp only [Option.some_bind]
  rw [parseLit_append]
  dsimp only
  rw [parseOptStr_enc]
  simp only [Option.some_bind]
  rw [parseLit_append]
  dsimp only
  rw [parseStr_enc]
  simp only [Option.some_bind]
  rw [parseLit_append]
  dsimp only
  rw [parseFever_enc]
  simp only [Option.some_bind]
  rw [parseLit_append]
  dsimp only
  rw [parsePred_enc]
  simp only [Option.some_bind]
  rw [parseLit_append]
  dsimp only
  rw [parseStr_enc]
  simp only [Option.some_bind]
  rw [parseLit_append]
  dsimp only
  rw [parseBool_enc]
  simp only [Option.some_bind]
  rw [parseLit_append]
  dsimp only
  rw [parseNat_key]
  simp only [Option.some_bind]
  rw [parseLit_append]
  dsimp only
  rw [parseOptBool_enc]
  simp only [Option.some_bind]
  rw [parseLit_append]
  dsimp only
  rw [parseOptStr_enc]
  simp only [Option.some_bind]
  rw [parseLit_append]
  dsimp only
  rw [parseOptUsage_enc]
  simp only [Option.some_bind]
  rw [parseLit_append]
  rfl

set_option maxHeartbeats 1600000 in
theorem parseEntry_enc (e : CacheEntry) (r : List Char) :
    parseEntry (encodeEntry e ++ r) = some (e, r) := by
  unfold parseEntry encodeEntry encodeEntryMid
  rw [show ('\x7b' :: (lit "\"v\":" ++ encNat e.v
      ++ encField "datasetPath" (encString e.datasetPath)
      ++ encField "modelId" (encString e.modelId)
      ++ encField "exampleId" (encString e.exampleId)
      ++ encField "exampleHash" (encString e.exampleHash)
      ++ encField "item" (encItem e.item)
      ++ encField "cachedAtIso" (encString e.cachedAtIso)) ++ ['\x7d']) ++ r
    = lit "\x7b\"v\":" ++ (encNat e.v
      ++ (encField "datasetPath" (encString e.datasetPath)
      ++ (encField "modelId" (encString e.modelId)
      ++ (encField "exampleId" (encString e.exampleId)
      ++ (encField "exampleHash" (encString e.exampleHash)
      ++ (encField "item" (encItem e.item)
      ++ (encField "cachedAtIso" (encString e.cachedAtIso)
      ++ (lit "\x7d" ++ r)))))))) from by simp [lit, List.append_assoc]]
  simp only [parseField, encField, List.append_assoc]
  rw [parseLit_append]
  simp only [Option.some_bind]
  rw [parseNat_key]
  simp only [Option.some_bind]
  rw [parseLit_append]
  dsimp only
  rw [parseStr_enc]
  simp only [Option.some_bind]
  rw [parseLit_append]
  dsimp only
  rw [parseStr_enc]
  simp only [Option.some_bind]
  rw [parseLit_append]
  dsimp only
  rw [parseStr_enc]
  simp only [Option.some_bind]
  rw [parseLit_append]
  dsimp only
  rw [parseStr_enc]
  simp only [Option.some_bind]
  rw [parseLit_append]
  dsimp only
  rw [parseItem_enc]
  simp only [Option.some_bind]
  rw [parseLit_append]
  dsimp only
  rw [parseStr_enc]
  simp only [Option.some_bind]
  rw [parseLit_append]
  rfl

theorem decodeEntryL_enc (e : CacheEntry) :
    decodeEntryL (encodeEntry e) = some e := by
  unfold decodeEntryL
  have h := parseEntry_enc e []
  rw [List.append_nil] at h
  rw [h]

/-- No raw newline or carriage return occurs in the list. -/
abbrev noNl (l : List Char) : Prop := ∀ c ∈ l, c ≠ '\n' ∧ c ≠ '\r'

theorem noNl_append {a b : List Char} (ha : noNl a) (hb : noNl b) :
    noNl (a ++ b) := by
  intro c hc
  rcases List.mem_append.mp hc with h | h
  · exact ha c h
  · exact hb c h

theorem hexDigitChar_not_nl : ∀ k, k < 16 →
    hexDigitChar k ≠ '\n' ∧ hexDigitChar k ≠ '\r' := by decide

theorem noNl_escChar (c : Char) : noNl (escChar c) := by
  unfold escChar
  by_cases h1 : c = '"'
  · simp only [h1, reduceIte]; decide
  · rw [if_neg h1]
    by_cases h2 : c = '\\'
    · simp only [h2, reduceIte]; decide
    · rw [if_neg h2]
      by_cases h3 : c = '\n'
      · simp only [h3, reduceIte]; decide
      · rw [if_neg h3]
        by_cases h4 : c = '\r'
        · simp only [h4, reduceIte]; decide
        · rw [if_neg h4]
          by_cases h5 : c = '\t'
          · simp only [h5, reduceIte]; decide
          · rw [if_neg h5]
            by_cases h6 : c.toNat < 32
            · rw [if_pos h6]
              intro d hd
              simp only [List.mem_cons, List.not_mem_nil, or_false] at hd
              rcases hd with rfl | rfl | rfl | rfl | rfl | rfl
              · decide
              · decide
              · decide
              · decide
              · exact hexDigitChar_not_nl _ (by omega)
              · exact hexDigitChar_not_nl _ (Nat.mod_lt _ (by omega))
            · rw [if_neg h6]
              intro d hd
              simp only [List.mem_singleton] at hd
              subst hd
              exact ⟨h3, h4⟩

theorem noNl_escList (s : List Char) : noNl (escList s) := by
  induction s with
  | nil => intro c hc; simp [escList] at hc
  | cons c cs ih =>
    show noNl (escChar c ++ escList cs)
    exact noNl_append (noNl_escChar c) ih

theorem noNl_encString (s : String) : noNl (encString s) := by
  unfold encString
  intro c hc
  simp only [List.mem_cons] at hc
  rcases hc with rfl | hc
  · decide
  · rcases List.mem_append.mp hc with h | h
    · exact noNl_escList _ c h
    · simp only [List.mem_singleton] at h; subst h; decide

theorem isDigitCh_not_nl {c : Char} (h : isDigitCh c = true) :
    c ≠ '\n' ∧ c ≠ '\r' := by
  constructor <;> intro he <;> subst he <;> simp [isDigitCh] at h

theorem noNl_encNat (n : Nat) : noNl (encNat n) := by
  intro c hc
  exact isDigitCh_not_nl (natToDigits_all_digits n c hc)

theorem noNl_lit (s : String) (h : ∀ c ∈ s.toList, c ≠ '\n' ∧ c ≠ '\r') :
    noNl (lit s) := h

theorem noNl_encBool (b : Bool) : noNl (encBool b) := by
  cases b with
  | true => show noNl (lit "true"); decide
  | false => show noNl (lit "false"); decide

theorem noNl_encOptVia {α : Type} (enc : α → List Char)
    (henc : ∀ x, noNl (enc x)) : ∀ v, noNl (encOptVia enc v) := by
  intro v
  cases v with
  | none => show noNl (lit "null"); decide
  | some x => exact henc x

theorem noNl_keyLit (key : String) (hkey : noNl (lit key)) :
    noNl (keyLit key) := by
  unfold keyLit
  intro c hc
  simp only [List.mem_cons] at hc
  rcases hc with rfl | rfl | hc
  · decide
  · decide
  · rcases List.mem_append.mp hc with h | h
    · exact hkey c h
    · simp only [List.mem_cons, List.not_mem_nil, or_false] at h
      rcases h with rfl | rfl <;> decide

theorem noNl_encField (key : String) (v : List Char)
    (hkey : noNl (lit key)) (hv : noNl v) : noNl (encField key v) :=
  noNl_append (noNl_keyLit key hkey) hv

theorem noNl_encUsage (u : Usage) : noNl (encUsage u) := by
  unfold encUsage
  refine noNl_append (noNl_append (noNl_append (noNl_append ?_ ?_) ?_) ?_) ?_
  · exact noNl_lit _ (by decide)
  · exact noNl_encOptVia _ noNl_encNat _
  · exact noNl_encField _ _ (by decide) (noNl_encOptVia _ noNl_encNat _)
  · exact noNl_encField _ _ (by decide) (noNl_encOptVia _ noNl_encNat _)
  · exact noNl_lit _ (by decide)

theorem noNl_encItem (it : ModelEvalItem) : noNl (encItem it) := by
  unfold encItem
  refine noNl_append (noNl_append (noNl_append (noNl_append (noNl_append
    (noNl_append (noNl_append (noNl_append (noNl_append (noNl_append
    (noNl_append (noNl_append ?_ ?_) ?_) ?_) ?_) ?_) ?_) ?_) ?_) ?_) ?_) ?_) ?_
  · exact noNl_lit _ (by decide)
  · cases hd : it.datasetId with
    | num n => exact noNl_encNat n
    | str s => exact noNl_encString s
  · exact noNl_encField _ _ (by decide) (noNl_encOptVia _ noNl_encString _)
  · exact noNl_encField _ _ (by decide) (noNl_encString _)
  · exact noNl_encField _ _ (by decide) (noNl_encString _)
  · exact noNl_encField _ _ (by decide) (noNl_encString _)
  · exact noNl_encField _ _ (by decide) (noNl_encString _)
  · exact noNl_encField _ _ (by decide) (noNl_encBool _)
  · exact noNl_encField _ _ (by decide) (noNl_encNat _)
  · exact noNl_encField _ _ (by decide) (noNl_encOptVia _ noNl_encBool _)
  · exact noNl_encField _ _ (by decide) (noNl_encOptVia _ noNl_encString _)
  · exact noNl_encField _ _ (by decide) (noNl_encOptVia _ noNl_encUsage _)
  · exact noNl_lit _ (by decide)

theorem noNl_encodeEntry (e : CacheEntry) : noNl (encodeEntry e) := by
  unfold encodeEntry
  intro c hc
  rcases List.mem_cons.mp hc with rfl | hc
  · decide
  · rcases List.mem_append.mp hc with h | h
    · revert h
      refine fun h => ?_
      unfold encodeEntryMid at h
      rcases List.mem_append.mp h with h | h
      case inr =>
        exact noNl_encField _ _ (by decide) (noNl_encString _) c h
      case inl =>
      rcases List.mem_append.mp h with h | h
      case inr =>
        exact noNl_encField _ _ (by decide) (noNl_encItem _) c h
      case inl =>
      rcases List.mem_append.mp h with h | h
      case inr =>
        exact noNl_encField _ _ (by decide) (noNl_encString _) c h
      case inl =>
      rcases List.mem_append.mp h with h | h
      case inr =>
        exact noNl_encField _ _ (by decide) (noNl_encString _) c h
      case inl =>
      rcases List.mem_append.mp h with h | h
      case inr =>
        exact noNl_encField _ _ (by decide) (noNl_encString _) c h
      case inl =>
      rcases List.mem_append.mp h with h | h
      case inr =>
        exact noNl_encField _ _ (by decide) (noNl_encString _) c h
      case inl =>
      rcases List.mem_append.mp h with h | h
      case inr => exact noNl_encNat _ c h
      case inl => exact noNl_lit _ (by decide) c h
    · simp only [List.mem_singleton] at h; subst h; decide

theorem trimL_of_clean (l : List Char)
    (h1 : jsWhitespaceChar (headCh l) = false)
    (h2 : jsWhitespaceChar (headCh l.reverse) = false) : trimL l = l := by
  unfold trimL trimLeftL
  cases l with
  | nil => rfl
  | cons c t =>
    have hc : jsWhitespaceChar c = false := h1
    rw [List.dropWhile_cons]
    simp only [hc, Bool.false_eq_true, if_false]
    cases hrev : (c :: t).reverse with
    | nil => exact absurd hrev (by simp)
    | cons d t2 =>
      have hd : jsWhitespaceChar d = false := by
        rw [hrev] at h2
        exact h2
      rw [List.dropWhile_cons]
      simp only [hd, Bool.false_eq_true, if_false]
      rw [← hrev, List.reverse_reverse]

theorem encodeEntry_reverse (e : CacheEntry) :
    (encodeEntry e).reverse = '\x7d' :: ((encodeEntryMid e).reverse ++ ['\x7b']) := by
  unfold encodeEntry
  simp

theorem trimL_encodeEntry (e : CacheEntry) :
    trimL (encodeEntry e) = encodeEntry e := by
  apply trimL_of_clean
  · show jsWhitespaceChar '\x7b' = false
    decide
  · rw [encodeEntry_reverse]
    show jsWhitespaceChar '\x7d' = false
    decide

theorem splitLinesL_row (row : List Char) (rest : List Char) (h : noNl row) :
    splitLinesL (row ++ '\n' :: rest) = row :: splitLinesL rest := by
  induction row with
  | nil =>
    show splitLinesL ('\n' :: rest) = [] :: splitLinesL rest
    cases rest with
    | nil => decide
    | cons c2 t2 =>
      rw [splitLinesL.eq_def]
      simp
  | cons c row ih =>
    have hc := h c (by simp)
    have hsh : ∃ c2 t2, row ++ '\n' :: rest = c2 :: t2 := by
      cases row with
      | nil => exact ⟨'\n', rest, rfl⟩
      | cons a b => exact ⟨a, b ++ '\n' :: rest, rfl⟩
    obtain ⟨c2, t2, hsh⟩ := hsh
    show splitLinesL (c :: (row ++ '\n' :: rest)) = (c :: row) :: splitLinesL rest
    rw [hsh, splitLinesL.eq_def]
    have hcr : ¬(c = '\r' ∧ c2 = '\n') := fun hand => hc.2 hand.1
    simp only [hc.1, hc.2, hcr, Bool.false_eq_true, if_false, reduceIte]
    rw [← hsh, ih (fun d hd => h d (by simp [hd]))]
    rfl

theorem joinNl_cons₂ (a b : List Char) (l : List (List Char)) :
    joinNl (a :: b :: l) = a ++ '\n' :: joinNl (b :: l) := by
  rw [joinNl.eq_def]

theorem splitLinesL_save (rows : List (List Char))
    (hrows : ∀ row ∈ rows, noNl row) :
    rows ≠ [] → splitLinesL (joinNl rows ++ ['\n']) = rows ++ [[]] := by
  induction rows with
  | nil => intro h; contradiction
  | cons row rs ih =>
    intro _
    cases rs with
    | nil =>
      rw [show joinNl [row] = row from rfl]
      rw [show (['\n'] : List Char) = '\n' :: [] from rfl]
      rw [splitLinesL_row row [] (hrows row (by simp))]
      rw [show splitLinesL [] = [[]] from by decide]
      rfl
    | cons r2 rs2 =>
      rw [joinNl_cons₂, List.append_assoc, List.cons_append]
      rw [splitLinesL_row row _ (hrows row (by simp))]
      rw [ih (fun r h => hrows r (by simp [h])) (by simp)]
      rfl

theorem processLines_entry (e : CacheEntry) (rows : List (List Char))
    (m : CacheMap) (hv : e.v = 1) (hid : e.exampleId ≠ "") :
    processLines (encodeEntry e :: rows) m
      = processLines rows (mapSet m e.exampleId e) := by
  rw [processLines.eq_def]
  dsimp only
  rw [trimL_encodeEntry]
  rw [show (encodeEntry e).isEmpty = false from rfl]
  simp only [Bool.false_eq_true, if_false]
  rw [decodeEntryL_enc]
  simp [hv, hid]

theorem processLines_end (m : CacheMap) : processLines [[]] m = m := by
  rw [processLines.eq_def]
  simp [trimL, trimLeftL]
  rw [processLines.eq_def]

theorem processLines_map (entries : CacheMap) :
    ∀ m : CacheMap,
    (∀ kv ∈ entries, kv.2.v = 1 ∧ kv.2.exampleId = kv.1 ∧ kv.1 ≠ "") →
    processLines ((entries.map fun kv => encodeEntry kv.2) ++ [[]]) m
      = entries.foldl (fun acc kv => mapSet acc kv.1 kv.2) m := by
  induction entries with
  | nil =>
    intro m _
    simp only [List.map_nil, List.nil_append, List.foldl_nil]
    exact processLines_end m
  | cons kv rest ih =>
    intro m hval
    obtain ⟨hv, hid, hne⟩ := hval kv (by simp)
    simp only [List.map_cons, List.cons_append, List.foldl_cons]
    rw [processLines_entry kv.2 _ m hv (by rw [hid]; exact hne)]
    rw [hid]
    exact ih _ (fun kv' h' => hval kv' (by simp [h']))

theorem mapSet_append (m : CacheMap) (k : String) (v : CacheEntry)
    (hk : ∀ kv ∈ m, kv.1 ≠ k) : mapSet m k v = m ++ [(k, v)] := by
  induction m with
  | nil => rfl
  | cons kv rest ih =>
    rcases kv with ⟨k', v'⟩
    have hne : k' ≠ k := hk (k', v') (by simp)
    rw [mapSet.eq_def]
    simp only [hne, Bool.false_eq_true, if_false, reduceIte]
    rw [ih (fun kv h => hk kv (by simp [h]))]
    rfl

theorem foldl_mapSet (entries : CacheMap) :
    ∀ acc : CacheMap, (entries.map Prod.fst).Nodup →
    (∀ kv ∈ entries, ∀ kv' ∈ acc, kv'.1 ≠ kv.1) →
    entries.foldl (fun m kv => mapSet m kv.1 kv.2) acc = acc ++ entries := by
  induction entries with
  | nil => intro acc _ _; simp
  | cons kv rest ih =>
    intro acc hnodup hdisj
    rw [List.map_cons] at hnodup
    have hnd := List.nodup_cons.mp hnodup
    simp only [List.foldl_cons]
    rw [mapSet_append acc kv.1 kv.2 (fun kv' h' => hdisj kv (by simp) kv' h')]
    rw [ih (acc ++ [kv]) hnd.2 ?_]
    · simp
    · intro kv2 h2 kv' h'
      rcases List.mem_append.mp h' with h' | h'
      · exact hdisj kv2 (by simp [h2]) kv' h'
      · simp only [List.mem_singleton] at h'
        subst h'
        intro he
        exact hnd.1 (by rw [he]; exact List.mem_map_of_mem Prod.fst h2)

/-- C7: for every non-empty map of valid version-1 cache entries keyed by
their own (non-empty) exampleId, saving it with `saveModelCache` and
reloading the written file content with `loadModelCache` yields a map whose
entries compare equal field-for-field to the originals. -/
theorem cache_save_load_roundtrip (entries : CacheMap)
    (hne : entries ≠ [])
    (hval : ∀ kv ∈ entries, kv.2.v = 1 ∧ kv.2.exampleId = kv.1 ∧ kv.1 ≠ "")
    (hkeys : (entries.map Prod.fst).Nodup) :
    loadModelCache (.ok (saveModelCache entries)) = .ok entries := by
  unfold loadModelCache
  dsimp only
  rw [show (saveModelCache entries).toList = saveChars entries from rfl]
  unfold saveChars
  dsimp only
  have hrowsne : (entries.map fun kv => encodeEntry kv.2) ≠ [] := by
    cases entries with
    | nil => contradiction
    | cons kv rest => simp
  rw [show ((entries.map fun kv => encodeEntry kv.2).isEmpty) = false from by
    cases entries with
    | nil => contradiction
    | cons kv rest => rfl]
  simp only [Bool.false_eq_true, if_false]
  rw [splitLinesL_save _ ?_ hrowsne]
  · rw [processLines_map entries [] hval]
    rw [foldl_mapSet entries [] hkeys (by intro kv _ kv' h'; simp at h')]
    simp
  · intro row hrow
    obtain ⟨kv, _, hkv⟩ := List.mem_map.mp hrow
    rw [← hkv]
    exact noNl_encodeEntry kv.2

/-- C7 witness: the round trip at a concrete one-entry map. -/
theorem cache_save_load_roundtrip_witness :
    loadModelCache (.ok (saveModelCache [("1", entryA)]))
      = .ok [("1", entryA)] :=
  cache_save_load_roundtrip [("1", entryA)] (by decide) (by decide) (by decide)

/-- C6: `loadModelCache` on a missing cache file returns an empty map rather
than an error; any read failure other than file-does-not-exist propagates to
the caller; loading file content always succeeds; and an individual line
that `JSON.parse` rejects is skipped without aborting the processing of the
remaining lines. -/
theorem loadModelCache_error_semantics :
    loadModelCache (.error .enoent) = .ok []
    ∧ (∀ msg, loadModelCache (.error (.other msg)) = .error (.other msg))
    ∧ (∀ text, ∃ m, loadModelCache (.ok text) = .ok m)
    ∧ (∀ bad rest m, trimL bad ≠ [] → decodeEntryL (trimL bad) = none →
        processLines (bad :: rest) m = processLines rest m) := by
  refine ⟨rfl, fun msg => rfl, fun text => ⟨_, rfl⟩, ?_⟩
  intro bad rest m hne hdec
  rw [processLines.eq_def]
  dsimp only
  rw [show (trimL bad).isEmpty = false from by
    cases h : trimL bad with
    | nil => exact absurd h hne
    | cons c t => rfl]
  simp only [Bool.false_eq_true, if_false]
  rw [hdec]

/-- C6 witness: a malformed line is skipped. -/
theorem loadModelCache_error_semantics_witness :
    processLines [lit "garbage"] [] = processLines [] [] :=
  loadModelCache_error_semantics.2.2.2 (lit "garbage") [] []
    (by decide) (by decide)

/-! ## Bounded-concurrency task pool (`promisePool`, `src/lib/evaluate.ts`)

The pool runs `c = max(1, min(concurrency, tasks.length))` workers over a
shared index cursor `next`; each worker grabs `next++`, returns if the index
is past the end, otherwise awaits the task, writes `results[i] = v`, calls
`onItem(v, i)` and loops.  The semantics is a small-step interleaving
relation: a worker holding the cursor either grabs an index or retires, and
an awaiting worker resolves at any time, so all completion orders the event
loop could produce are covered.  Tasks are pure in the embedding: task `i`
produces `tasks[i]`, and `events` records the `onItem` call order. -/

/-- The state of one worker of `promisePool`. -/
inductive WorkerState where
  | running
  | awaiting (i : Nat)
  | done
deriving DecidableEq, Repr

/-- The state of a `promisePool` run. -/
structure PoolState (α : Type) where
  next : Nat
  workers : List WorkerState
  results : List (Option α)
  events : List Nat
deriving Repr

/-- The pool state before any worker has acted. -/
def initPoolState (α : Type) (c n : Nat) : PoolState α :=
  ⟨0, List.replicate c .running, List.replicate n none, []⟩

/-- Embeds `Math.max(1, Math.min(concurrency, tasks.length))`. -/
def clampWorkers (concurrency : Int) (len : Nat) : Nat :=
  (max 1 (min concurrency (len : Int))).toNat

/-- Embeds the entry of `promisePool`, including its validation guard: a
concurrency limit below 1 throws before any worker is spawned. -/
def promisePoolStart {α : Type} (concurrency : Int) (tasks : List α) :
    Except String (PoolState α) :=
  if concurrency < 1 then .error "Concurrency must be at least 1"
  else .ok (initPoolState α (clampWorkers concurrency tasks.length) tasks.length)

/-- One interleaving step of the pool. -/
inductive PoolStep (tasks : List α) : PoolState α → PoolState α → Prop where
  | grab (s : PoolState α) (w : Nat)
      (hw : s.workers[w]? = some .running) (h : s.next < tasks.length) :
      PoolStep tasks s
        ⟨s.next + 1, s.workers.set w (.awaiting s.next), s.results, s.events⟩
  | grabDone (s : PoolState α) (w : Nat)
      (hw : s.workers[w]? = some .running) (h : tasks.length ≤ s.next) :
      PoolStep tasks s ⟨s.next + 1, s.workers.set w .done, s.results, s.events⟩
  | resolve (s : PoolState α) (w i : Nat) (v : α)
      (hw : s.workers[w]? = some (.awaiting i)) (hv : tasks[i]? = some v) :
      PoolStep tasks s
        ⟨s.next, s.workers.set w .running, s.results.set i (some v),
          s.events ++ [i]⟩

/-- Reachability under pool steps. -/
def PoolReach (tasks : List α) : PoolState α → PoolState α → Prop :=
  Relation.ReflTransGen (PoolStep tasks)

/-- A terminal pool state: every worker has retired, i.e. the
`Promise.all` of the workers has resolved and `promisePool` returns. -/
def PoolDone {α : Type} (s : PoolState α) : Prop :=
  ∀ st ∈ s.workers, st = WorkerState.done

/-- The run invariant of the pool. -/
structure PoolInv {α : Type} (tasks : List α) (s : PoolState α) : Prop where
  workers_ne : s.workers ≠ []
  results_len : s.results.length = tasks.length
  res_val : ∀ (i : Nat) (v : α), s.results[i]? = some (some v) → tasks[i]? = some v
  res_iff : ∀ i : Nat, i ∈ s.events ↔ (∃ v : α, s.results[i]? = some (some v))
  ev_nodup : s.events.Nodup
  ev_lt : ∀ i ∈ s.events, i < s.next ∧ i < tasks.length
  aw_lt : ∀ (w i : Nat), s.workers[w]? = some (WorkerState.awaiting i) →
      i < s.next ∧ i < tasks.length
  aw_uniq : ∀ (w w' i : Nat), s.workers[w]? = some (WorkerState.awaiting i) →
      s.workers[w']? = some (WorkerState.awaiting i) → w = w'
  aw_not_ev : ∀ (w i : Nat), s.workers[w]? = some (WorkerState.awaiting i) →
      i ∉ s.events
  cover : ∀ i : Nat, i < s.next → i < tasks.length →
      i ∈ s.events ∨ ∃ w : Nat, s.workers[w]? = some (WorkerState.awaiting i)
  done_next : ∀ w : Nat, s.workers[w]? = some WorkerState.done →
      tasks.length ≤ s.next

theorem getElem?_singleton {α : Type} {x y : α} {w : Nat}
    (h : [x][w]? = some y) : w = 0 ∧ y = x := by
  cases w with
  | zero =>
    refine ⟨rfl, ?_⟩
    simp at h
    exact h.symm
  | succ n => simp at h

theorem getElem?_replicate_some {α : Type} {n w : Nat} {a b : α}
    (h : (List.replicate n a)[w]? = some b) : b = a := by
  rcases Nat.lt_or_ge w n with h' | h'
  · rw [List.getElem?_replicate_of_lt h'] at h
    injection h with h
    exact h.symm
  · rw [List.getElem?_eq_none (by simpa using h')] at h
    cases h

theorem poolInv_init {α : Type} (tasks : List α) (c : Nat) (hc : 1 ≤ c) :
    PoolInv tasks (initPoolState α c tasks.length) := by
  refine ⟨?_, ?_, ?_, ?_, ?_, ?_, ?_, ?_, ?_, ?_, ?_⟩
  · intro hnil
    have h0 := congrArg List.length hnil
    simp [initPoolState] at h0
    omega
  · simp [initPoolState]
  · intro i v h
    have := getElem?_replicate_some h
    cases this
  · intro i
    constructor
    · intro h
      simp [initPoolState] at h
    · rintro ⟨v, h⟩
      have := getElem?_replicate_some h
      cases this
  · exact List.nodup_nil
  · intro i hi
    simp [initPoolState] at hi
  · intro w i h
    have := getElem?_replicate_some h
    cases this
  · intro w w' i h h'
    have := getElem?_replicate_some h
    cases this
  · intro w i h
    have := getElem?_replicate_some h
    cases this
  · intro i hi _
    simp [initPoolState] at hi
  · intro w h
    have := getElem?_replicate_some h
    cases this

theorem poolInv_step {α : Type} {tasks : List α} {s s' : PoolState α}
    (inv : PoolInv tasks s) (st : PoolStep tasks s s') : PoolInv tasks s' := by
  cases st with
  | grab w hw h =>
    have hwlt : w < s.workers.length := (List.getElem?_eq_some.mp hw).1
    refine ⟨?_, inv.results_len, inv.res_val, inv.res_iff, inv.ev_nodup,
      ?_, ?_, ?_, ?_, ?_, ?_⟩
    · intro hnil
      have h0 := congrArg List.length hnil
      rw [List.length_set] at h0
      exact inv.workers_ne (List.eq_nil_of_length_eq_zero h0)
    · intro i hi
      have := inv.ev_lt i hi
      exact ⟨Nat.lt_succ_of_lt this.1, this.2⟩
    · intro w' i hw'
      by_cases hww : w = w'
      · subst hww
        rw [List.getElem?_set_eq hwlt] at hw'
        injection hw' with hw2
        injection hw2 with hw3
        subst hw3
        exact ⟨Nat.lt_succ_self _, h⟩
      · rw [List.getElem?_set_ne hww] at hw'
        have := inv.aw_lt w' i hw'
        exact ⟨Nat.lt_succ_of_lt this.1, this.2⟩
    · intro w1 w2 i h1 h2
      by_cases hw1 : w = w1 <;> by_cases hw2 : w = w2
      · omega
      · subst hw1
        rw [List.getElem?_set_eq hwlt] at h1
        injection h1 with h1a
        injection h1a with h1b
        rw [List.getElem?_set_ne hw2] at h2
        have := inv.aw_lt w2 i h2
        omega
      · subst hw2
        rw [List.getElem?_set_eq hwlt] at h2
        injection h2 with h2a
        injection h2a with h2b
        rw [List.getElem?_set_ne hw1] at h1
        have := inv.aw_lt w1 i h1
        omega
      · rw [List.getElem?_set_ne hw1] at h1
        rw [List.getElem?_set_ne hw2] at h2
        exact inv.aw_uniq w1 w2 i h1 h2
    · intro w' i hw'
      by_cases hww : w = w'
      · subst hww
        rw [List.getElem?_set_eq hwlt] at hw'
        injection hw' with hw2
        injection hw2 with hw3
        subst hw3
        intro hmem
        exact absurd (inv.ev_lt _ hmem).1 (by omega)
      · rw [List.getElem?_set_ne hww] at hw'
        exact inv.aw_not_ev w' i hw'
    · intro i hin hlen
      rcases Nat.lt_or_ge i s.next with hlt | hge
      · rcases inv.cover i hlt hlen with hev | ⟨w0, hw0⟩
        · exact Or.inl hev
        · right
          by_cases hww : w = w0
          · subst hww
            rw [hw] at hw0
            cases hw0
          · exact ⟨w0, by rw [List.getElem?_set_ne hww]; exact hw0⟩
      · have hin' : i < s.next + 1 := hin
        have hieq : i = s.next := by omega
        subst hieq
        exact Or.inr ⟨w, by rw [List.getElem?_set_eq hwlt]⟩
    · intro w' hw'
      by_cases hww : w = w'
      · subst hww
        rw [List.getElem?_set_eq hwlt] at hw'
        cases hw'
      · rw [List.getElem?_set_ne hww] at hw'
        exact Nat.le_succ_of_le (inv.done_next w' hw')
  | grabDone w hw h =>
    have hwlt : w < s.workers.length := (List.getElem?_eq_some.mp hw).1
    refine ⟨?_, inv.results_len, inv.res_val, inv.res_iff, inv.ev_nodup,
      ?_, ?_, ?_, ?_, ?_, ?_⟩
    · intro hnil
      have h0 := congrArg List.length hnil
      rw [List.length_set] at h0
      exact inv.workers_ne (List.eq_nil_of_length_eq_zero h0)
    · intro i hi
      have := inv.ev_lt i hi
      exact ⟨Nat.lt_succ_of_lt this.1, this.2⟩
    · intro w' i hw'
      by_cases hww : w = w'
      · subst hww
        rw [List.getElem?_set_eq hwlt] at hw'
        cases hw'
      · rw [List.getElem?_set_ne hww] at hw'
        have := inv.aw_lt w' i hw'
        exact ⟨Nat.lt_succ_of_lt this.1, this.2⟩
    · intro w1 w2 i h1 h2
      by_cases hw1 : w = w1
      · subst hw1
        rw [List.getElem?_set_eq hwlt] at h1
        cases h1
      · by_cases hw2 : w = w2
        · subst hw2
          rw [List.getElem?_set_eq hwlt] at h2
          cases h2
        · rw [List.getElem?_set_ne hw1] at h1
          rw [List.getElem?_set_ne hw2] at h2
          exact inv.aw_uniq w1 w2 i h1 h2
    · intro w' i hw'
      by_cases hww : w = w'
      · subst hww
        rw [List.getElem?_set_eq hwlt] at hw'
        cases hw'
      · rw [List.getElem?_set_ne hww] at hw'
        exact inv.aw_not_ev w' i hw'
    · intro i hin hlen
      rcases Nat.lt_or_ge i s.next with hlt | hge
      · rcases inv.cover i hlt hlen with hev | ⟨w0, hw0⟩
        · exact Or.inl hev
        · right
          by_cases hww : w = w0
          · subst hww
            rw [hw] at hw0
            cases hw0
          · exact ⟨w0, by rw [List.getElem?_set_ne hww]; exact hw0⟩
      · omega
    · intro w' hw'
      exact Nat.le_succ_of_le h
  | resolve w i v hw hv =>
    have hwlt : w < s.workers.length := (List.getElem?_eq_some.mp hw).1
    have hawi := inv.aw_lt w i hw
    have hilt : i < s.results.length := by
      rw [inv.results_len]
      exact hawi.2
    have hinotev : i ∉ s.events := inv.aw_not_ev w i hw
    refine ⟨?_, ?_, ?_, ?_, ?_, ?_, ?_, ?_, ?_, ?_, ?_⟩
    · intro hnil
      have h0 := congrArg List.length hnil
      rw [List.length_set] at h0
      exact inv.workers_ne (List.eq_nil_of_length_eq_zero h0)
    · rw [List.length_set]
      exact inv.results_len
    · intro j u hj
      by_cases hij : i = j
      · subst hij
        rw [List.getElem?_set_eq hilt] at hj
        injection hj with hj2
        injection hj2 with hj3
        rw [← hj3]
        exact hv
      · rw [List.getElem?_set_ne hij] at hj
        exact inv.res_val j u hj
    · intro j
      constructor
      · intro hj
        rcases List.mem_append.mp hj with hj | hj
        · have hij : i ≠ j := fun he => hinotev (he ▸ hj)
          obtain ⟨u, hu⟩ := (inv.res_iff j).mp hj
          exact ⟨u, by rw [List.getElem?_set_ne hij]; exact hu⟩
        · simp only [List.mem_singleton] at hj
          subst hj
          exact ⟨v, by rw [List.getElem?_set_eq hilt]⟩
      · rintro ⟨u, hu⟩
        by_cases hij : i = j
        · subst hij
          exact List.mem_append.mpr (Or.inr (by simp))
        · rw [List.getElem?_set_ne hij] at hu
          exact List.mem_append.mpr (Or.inl ((inv.res_iff j).mpr ⟨u, hu⟩))
    · rw [List.nodup_append]
      exact ⟨inv.ev_nodup, List.nodup_singleton i,
        fun a ha hb => by simp at hb; subst hb; exact hinotev ha⟩
    · intro j hj
      rcases List.mem_append.mp hj with hj | hj
      · exact inv.ev_lt j hj
      · simp only [List.mem_singleton] at hj
        subst hj
        exact hawi
    · intro w' j hw'
      by_cases hww : w = w'
      · subst hww
        rw [List.getElem?_set_eq hwlt] at hw'
        cases hw'
      · rw [List.getElem?_set_ne hww] at hw'
        exact inv.aw_lt w' j hw'
    · intro w1 w2 j h1 h2
      by_cases hw1 : w = w1
      · subst hw1
        rw [List.getElem?_set_eq hwlt] at h1
        cases h1
      · by_cases hw2 : w = w2
        · subst hw2
          rw [List.getElem?_set_eq hwlt] at h2
          cases h2
        · rw [List.getElem?_set_ne hw1] at h1
          rw [List.getElem?_set_ne hw2] at h2
          exact inv.aw_uniq w1 w2 j h1 h2
    · intro w' j hw'
      by_cases hww : w = w'
      · subst hww
        rw [List.getElem?_set_eq hwlt] at hw'
        cases hw'
      · rw [List.getElem?_set_ne hww] at hw'
        have hji : j ≠ i := by
          intro he
          subst he
          exact hww (inv.aw_uniq _ _ _ hw hw')
        intro hmem
        rcases List.mem_append.mp hmem with hm | hm
        · exact inv.aw_not_ev w' j hw' hm
        · simp only [List.mem_singleton] at hm
          exact hji hm
    · intro j hjn hjl
      rcases inv.cover j hjn hjl with hev | ⟨w0, hw0⟩
      · exact Or.inl (List.mem_append.mpr (Or.inl hev))
      · by_cases hww : w = w0
        · subst hww
          rw [hw] at hw0
          injection hw0 with hw1
          injection hw1 with hw2
          subst hw2
          exact Or.inl (List.mem_append.mpr (Or.inr (by simp)))
        · exact Or.inr ⟨w0, by rw [List.getElem?_set_ne hww]; exact hw0⟩
    · intro w' hw'
      by_cases hww : w = w'
      · subst hww
        rw [List.getElem?_set_eq hwlt] at hw'
        cases hw'
      · rw [List.getElem?_set_ne hww] at hw'
        exact inv.done_next w' hw'

theorem poolInv_reach {α : Type} {tasks : List α} {s s' : PoolState α}
    (h : PoolReach tasks s s') (inv : PoolInv tasks s) : PoolInv tasks s' := by
  induction h with
  | refl => exact inv
  | tail _ hstep ih => exact poolInv_step ih hstep

theorem poolDone_facts {α : Type} {tasks : List α} {s : PoolState α}
    (inv : PoolInv tasks s) (hdone : PoolDone s) :
    (∀ i : Nat, i < tasks.length → s.results[i]? = some tasks[i]?)
      ∧ s.events.Perm (List.range tasks.length) := by
  have hlen : tasks.length ≤ s.next := by
    cases hws : s.workers with
    | nil => exact absurd hws inv.workers_ne
    | cons st rest =>
      have hst : s.workers[0]? = some st := by rw [hws]; simp
      have : st = WorkerState.done := hdone st (by rw [hws]; simp)
      subst this
      exact inv.done_next 0 hst
  have hev : ∀ i : Nat, i < tasks.length → i ∈ s.events := by
    intro i hi
    rcases inv.cover i (by omega) hi with h | ⟨w, hw⟩
    · exact h
    · have hmem := List.getElem?_mem hw
      have := hdone _ hmem
      cases this
  constructor
  · intro i hi
    obtain ⟨v, hv⟩ := (inv.res_iff i).mp (hev i hi)
    rw [hv, inv.res_val i v hv]
  · refine (List.perm_ext_iff_of_nodup inv.ev_nodup (List.nodup_range _)).mpr ?_
    intro x
    constructor
    · intro hx
      exact List.mem_range.mpr (inv.ev_lt x hx).2
    · intro hx
      exact hev x (List.mem_range.mp hx)

/-- The single-worker invariant: with one worker the pool is deterministic
and the callback order is the input order. -/
def Inv1 {α : Type} (tasks : List α) (s : PoolState α) : Prop :=
  (s.workers = [WorkerState.running] ∧ s.next ≤ tasks.length
      ∧ s.events = List.range s.next)
  ∨ (∃ k, s.workers = [WorkerState.awaiting k] ∧ k < tasks.length
      ∧ s.next = k + 1 ∧ s.events = List.range k)
  ∨ (s.workers = [WorkerState.done] ∧ s.events = List.range tasks.length)

theorem inv1_step {α : Type} {tasks : List α} {s s' : PoolState α}
    (h1 : Inv1 tasks s) (st : PoolStep tasks s s') : Inv1 tasks s' := by
  cases st with
  | grab w hw h =>
    rcases h1 with ⟨hws, hle, hev⟩ | ⟨k, hws, _, _, _⟩ | ⟨hws, hev⟩
    · rw [hws] at hw
      obtain ⟨hw0, _⟩ := getElem?_singleton hw
      subst hw0
      right; left
      refine ⟨s.next, ?_, h, rfl, hev⟩
      rw [hws]
      rfl
    · rw [hws] at hw
      obtain ⟨_, habs⟩ := getElem?_singleton hw
      cases habs
    · rw [hws] at hw
      obtain ⟨_, habs⟩ := getElem?_singleton hw
      cases habs
  | grabDone w hw h =>
    rcases h1 with ⟨hws, hle, hev⟩ | ⟨k, hws, _, _, _⟩ | ⟨hws, hev⟩
    · rw [hws] at hw
      obtain ⟨hw0, _⟩ := getElem?_singleton hw
      subst hw0
      right; right
      constructor
      · rw [hws]; rfl
      · have : s.next = tasks.length := by omega
        rw [hev, this]
    · rw [hws] at hw
      obtain ⟨_, habs⟩ := getElem?_singleton hw
      cases habs
    · rw [hws] at hw
      obtain ⟨_, habs⟩ := getElem?_singleton hw
      cases habs
  | resolve w i v hw hv =>
    rcases h1 with ⟨hws, hle, hev⟩ | ⟨k, hws, hk, hnext, hev⟩ | ⟨hws, hev⟩
    · rw [hws] at hw
      obtain ⟨_, habs⟩ := getElem?_singleton hw
      cases habs
    · rw [hws] at hw
      obtain ⟨hw0, hka⟩ := getElem?_singleton hw
      subst hw0
      injection hka with hik
      subst hik
      left
      refine ⟨?_, by show s.next ≤ tasks.length; omega, ?_⟩
      · rw [hws]; rfl
      · show s.events ++ [i] = List.range s.next
        rw [hev, hnext, List.range_succ]
    · rw [hws] at hw
      obtain ⟨_, habs⟩ := getElem?_singleton hw
      cases habs

theorem inv1_reach {α : Type} {tasks : List α} {s s' : PoolState α}
    (h : PoolReach tasks s s') (inv : Inv1 tasks s) : Inv1 tasks s' := by
  induction h with
  | refl => exact inv
  | tail _ hstep ih => exact inv1_step ih hstep

/-- C8: for every task list and every (valid) concurrency limit, at every
terminal state of the pool the result array is index-aligned with the
input — the result at index `i` is the value produced by task `i` — and the
`onItem` events are a permutation of the task indices, regardless of the
completion order the schedule produced; and for concurrency limit 1 the
completion (callback) order equals input order. -/
theorem promisePool_results_aligned {α : Type} :
    (∀ (tasks : List α) (conc : Int) (s0 s : PoolState α),
      promisePoolStart conc tasks = .ok s0 →
      PoolReach tasks s0 s → PoolDone s →
      (∀ i : Nat, i < tasks.length → s.results[i]? = some tasks[i]?)
        ∧ s.events.Perm (List.range tasks.length))
    ∧ (∀ (tasks : List α) (s : PoolState α),
        PoolReach tasks (initPoolState α 1 tasks.length) s → PoolDone s →
        s.events = List.range tasks.length) := by
  constructor
  · intro tasks conc s0 s hstart hreach hdone
    unfold promisePoolStart at hstart
    by_cases hc : conc < 1
    · rw [if_pos hc] at hstart
      cases hstart
    · rw [if_neg hc] at hstart
      injection hstart with hs0
      have hc1 : 1 ≤ clampWorkers conc tasks.length := by
        unfold clampWorkers
        omega
      have inv := poolInv_reach hreach (hs0 ▸ poolInv_init tasks _ hc1)
      exact poolDone_facts inv hdone
  · intro tasks s hreach hdone
    have inv1 : Inv1 tasks (initPoolState α 1 tasks.length) := by
      left
      exact ⟨rfl, Nat.zero_le _, rfl⟩
    rcases inv1_reach hreach inv1 with ⟨hws, _, _⟩ | ⟨k, hws, _, _, _⟩ | ⟨_, hev⟩
    · have := hdone WorkerState.running (by rw [hws]; simp)
      cases this
    · have := hdone (WorkerState.awaiting k) (by rw [hws]; simp)
      cases this
    · exact hev

/-- C8 witness: a full single-worker run over two tasks reaches the terminal
state with index-aligned results and callbacks in input order. -/
theorem promisePool_results_aligned_witness :
    (⟨3, [WorkerState.done], [some 10, some 20], [0, 1]⟩
        : PoolState Nat).results[0]? = some ((10 : Nat) :: [20])[0]?
    ∧ (⟨3, [WorkerState.done], [some 10, some 20], [0, 1]⟩
        : PoolState Nat).results[1]? = some ((10 : Nat) :: [20])[1]?
    ∧ (⟨3, [WorkerState.done], [some 10, some 20], [0, 1]⟩
        : PoolState Nat).events = List.range 2 := by
  have hreach : PoolReach [10, 20] (initPoolState Nat 1 2)
      ⟨3, [WorkerState.done], [some 10, some 20], [0, 1]⟩ := by
    refine Relation.ReflTransGen.head (PoolStep.grab _ 0 (by decide) (by decide))
      (Relation.ReflTransGen.head (PoolStep.resolve _ 0 0 10 (by decide) (by decide))
      (Relation.ReflTransGen.head (PoolStep.grab _ 0 (by decide) (by decide))
      (Relation.ReflTransGen.head (PoolStep.resolve _ 0 1 20 (by decide) (by decide))
      (Relation.ReflTransGen.head (PoolStep.grabDone _ 0 (by decide) (by decide))
        Relation.ReflTransGen.refl))))
  have hdone : PoolDone
      (⟨3, [WorkerState.done], [some 10, some 20], [0, 1]⟩ : PoolState Nat) := by
    intro st hst
    simp at hst
    exact hst
  have hstart : promisePoolStart 1 [(10 : Nat), 20]
      = .ok (initPoolState Nat 1 2) := rfl
  have h1 := (promisePool_results_aligned.1 [10, 20] 1 _ _ hstart hreach hdone).1
  have h2 := promisePool_results_aligned.2 [10, 20] _ hreach hdone
  exact ⟨h1 0 (by decide), h1 1 (by decide), h2⟩

/-- C9 counterexample: a concurrency limit below 1 is not clamped — the
validated `promisePool` rejects it with an error before any clamping. -/
theorem promisePool_guard_counterexample :
    (promisePoolStart 0 [(42 : Nat)] : Except String (PoolState Nat))
      = .error "Concurrency must be at least 1" := rfl

/-- C9 (amended): a concurrency limit below 1 is rejected with an error by
the validated `promisePool` (not clamped); for valid limits the effective
worker count `max(1, min(limit, tasks.length))` is at least 1 and, for a
non-empty task list, at most the task count, so no idle workers are
spawned; and on an empty task list every run returns immediately with an
empty result array, with no task ever started and no callback fired. -/
theorem promisePool_clamp_empty (conc : Int) (len : Nat) (s : PoolState Nat)
    (hreach : PoolReach ([] : List Nat)
      (initPoolState Nat (clampWorkers conc 0) 0) s) :
    (∀ tasks : List Nat, promisePoolStart (0 : Int) tasks
        = .error "Concurrency must be at least 1")
    ∧ 1 ≤ clampWorkers conc len
    ∧ (1 ≤ len → clampWorkers conc len ≤ len)
    ∧ s.events = [] ∧ s.results = []
    ∧ ∀ (w i : Nat), s.workers[w]? ≠ some (WorkerState.awaiting i) := by
  have hc1 : 1 ≤ clampWorkers conc 0 := by unfold clampWorkers; omega
  have inv := poolInv_reach hreach (poolInv_init ([] : List Nat) _ hc1)
  refine ⟨fun tasks => rfl, ?_, ?_, ?_, ?_, ?_⟩
  · unfold clampWorkers; omega
  · intro hlen
    unfold clampWorkers
    omega
  · cases hev : s.events with
    | nil => rfl
    | cons j rest =>
      have := inv.ev_lt j (by rw [hev]; simp)
      simp at this
  · have := inv.results_len
    simp at this
    exact this
  · intro w i hw
    have := inv.aw_lt w i hw
    simp at this

/-- C9 witness: the clamp bounds at limit 2 over 3 tasks, the guard at
limit 0, and the empty-task behaviour at the initial state itself. -/
theorem promisePool_clamp_empty_witness :
    (∀ tasks : List Nat, promisePoolStart (0 : Int) tasks
        = .error "Concurrency must be at least 1")
    ∧ 1 ≤ clampWorkers 2 3
    ∧ (1 ≤ 3 → clampWorkers 2 3 ≤ 3)
    ∧ (initPoolState Nat (clampWorkers 2 0) 0).events = []
    ∧ (initPoolState Nat (clampWorkers 2 0) 0).results = []
    ∧ ∀ (w i : Nat), (initPoolState Nat (clampWorkers 2 0) 0).workers[w]?
        ≠ some (WorkerState.awaiting i) :=
  promisePool_clamp_empty 2 3 (initPoolState Nat (clampWorkers 2 0) 0)
    Relation.ReflTransGen.refl

/-- C1 witness: the amended characterization at a concrete correct
prediction. -/
theorem ok_flag_iff_correct_witness :
    (evaluateExampleBody exampleA (Except.ok (some "SUPPORTS", none)) 3).ok
      = true :=
  (ok_flag_iff_correct exampleA (.ok (some "SUPPORTS", none)) 3).mpr
    ⟨by decide, some "SUPPORTS", none, rfl, by decide⟩
